import Mathlib

/-!
Verification of the pseudo-code → C++ translator (parser.py, control_flow/if.py,
control_flow/for.py, with the while renderer modelled from the spec).

The embedding works at the level of the PLY semantic actions: a surface program
is the parse tree the LALR grammar recognises, and the definitions below perform
exactly the side effects the grammar actions perform, in LALR (bottom-up,
left-to-right) reduction order.  The Python global state (symbol_table,
has_return) is threaded explicitly as a `PState`; the registered type provider
is an `Oracle`; raising `MissingTypeError(v)` is `Except.error v`.  A `calls`
counter records how many times the provider is invoked (instrumentation used to
state "the oracle is / is not consulted" properties; no source behaviour
depends on it).
-/

namespace PseudoCpp

/-- The fixed datatype label list (parser.py line 14). -/
def valid_dtypes : List String := ["int", "float", "string", "long", "char", "array", "vector"]

/-- The single-quote character, written by code point to keep source plain. -/
def sq : String := String.singleton (Char.ofNat 39)

/-- The double-quote character. -/
def dq : String := "\""

/-- A Python value reaching the semantic actions: NUMBER tokens carry an int or
a float, every other grammar value is a string (an identifier or an already
flattened expression).  A float literal is kept as its textual form `r` (the
string `str(value)` would print), which is all `infer_type` and the generated
text ever use of it. -/
inductive PyVal where
  | vInt (n : Nat)
  | vFloat (r : String)
  | vStr (s : String)
  deriving DecidableEq, Repr

/-- Python `str(value)` for the values above. -/
def strOf : PyVal → String
  | .vInt n => toString n
  | .vFloat r => r
  | .vStr s => s

/-- Whether the value is a numeric constant (Python `isinstance(value, (int, float))`). -/
def isNumVal : PyVal → Bool
  | .vInt _ => true
  | .vFloat _ => true
  | .vStr _ => false

/-- Python `str.startswith`, computed on the character list. -/
def strStartsWith (s pre : String) : Bool := pre.toList.isPrefixOf s.toList

/-- Python `str.endswith`, computed on the character list. -/
def strEndsWith (s suf : String) : Bool := suf.toList.reverse.isPrefixOf s.toList.reverse

/-- Mirrors `infer_type` (parser.py lines 49-59): int → "int", float → "float",
text wrapped in double quotes → "string", text wrapped in single quotes →
"char", anything else → no inference. -/
def infer_type : PyVal → Option String
  | .vInt _ => some "int"
  | .vFloat _ => some "float"
  | .vStr v =>
      if strStartsWith v dq && strEndsWith v dq then some "string"
      else if strStartsWith v sq && strEndsWith v sq then some "char"
      else none

/-- Python `str.isidentifier` restricted to ASCII (the lexer's ID tokens are
ASCII): nonempty, first character a letter or underscore, rest letters, digits
or underscores. -/
def isPyIdentifier (s : String) : Bool :=
  match s.toList with
  | [] => false
  | c :: cs => (c.isAlpha || c = '_') && cs.all (fun d => d.isAlphanum || d = '_')

/-- A character Python `str.strip()` removes. -/
def isPySpace (c : Char) : Bool :=
  c = ' ' || c = '\t' || c = '\n' || c = '\r' || c = Char.ofNat 11 || c = Char.ofNat 12

/-- Python `str.strip()`: drop leading and trailing whitespace. -/
def pyStrip (s : String) : String :=
  String.mk (((s.toList.dropWhile isPySpace).reverse.dropWhile isPySpace).reverse)

/-! ### The symbol table

`symbol_table` is a Python dict from variable name to type label.  It is
modelled as an insertion-ordered association list: `tblInsert` overwrites in
place when the key exists (a dict update keeps the key's position) and appends
otherwise; iteration order is list order, matching `dict.items()`. -/

/-- Dict lookup: first (and, for tables built by `tblInsert`, only) entry. -/
def tblLookup : List (String × String) → String → Option String
  | [], _ => none
  | (k, v) :: t, key => if k = key then some v else tblLookup t key

/-- Dict update `d[key] = val`: replace in place, or append a new entry. -/
def tblInsert : List (String × String) → String → String → List (String × String)
  | [], key, val => [(key, val)]
  | (k, v) :: t, key, val => if k = key then (k, val) :: t else (k, v) :: tblInsert t key val

/-- Dict `d.pop(key)`'s removal effect: drop the entry with this key. -/
def tblErase : List (String × String) → String → List (String × String)
  | [], _ => []
  | (k, v) :: t, key => if k = key then t else (k, v) :: tblErase t key

/-- The keys of the table, in iteration order. -/
def tblKeys (t : List (String × String)) : List String := t.map Prod.fst

/-- Python `key in d`. -/
def tblMem (t : List (String × String)) (key : String) : Bool := (tblLookup t key).isSome

/-- The parse-scoped mutable state of parser.py: the `symbol_table` and
`has_return` globals, plus the provider-invocation counter (instrumentation). -/
structure PState where
  symtab : List (String × String)
  hasReturn : Bool
  calls : Nat
  deriving DecidableEq, Repr

/-- The registered `type_provider`: `none` models no provider registered;
`some f` models a registered callback, where `f var = none` models the
callback itself raising `MissingTypeError(var)` (as the supplied HTTP provider
does) and `f var = some raw` models it returning the string `raw`. -/
abbrev Oracle := Option (String → Option String)

/-- Mirrors `ask_type` (parser.py lines 63-71): no provider → raise
`MissingTypeError(var)`; otherwise invoke the provider (counted), strip the
answer, and reject it with `MissingTypeError(var)` unless it is one of the
valid labels. -/
def ask_type (o : Oracle) (var : String) (calls : Nat) : Except String (String × Nat) :=
  match o with
  | none => .error var
  | some f =>
      match f var with
      | none => .error var
      | some raw =>
          let dtype := pyStrip raw
          if dtype ∈ valid_dtypes then .ok (dtype, calls + 1) else .error var

/-- Mirrors `handle_assignment` (parser.py lines 73-103).  Numeric constants
keep type inference; a single-identifier right-hand side propagates the source
identifier's type to the target (resolving the source first if needed);
anything else resolves the target by oracle consultation when it is untyped.
Returns the normalized value string `str(value)` together with the new state. -/
def handle_assignment (o : Oracle) (var : String) (value : PyVal) (is_expression : Bool)
    (st : PState) : Except String (String × PState) :=
  match value with
  | .vInt _ | .vFloat _ =>
      match infer_type value with
      | some inferred => .ok (strOf value, { st with symtab := tblInsert st.symtab var inferred })
      | none => .ok (strOf value, st)
  | .vStr s =>
      if !is_expression && isPyIdentifier s then
        match tblLookup st.symtab s with
        | some tv => .ok (s, { st with symtab := tblInsert st.symtab var tv })
        | none =>
            match ask_type o s st.calls with
            | .error e => .error e
            | .ok (tSrc, c) =>
                -- symbol_table[value] = ask_type(value), then
                -- symbol_table[var] = symbol_table[value]: the second lookup
                -- hits the entry just inserted, so it yields tSrc.
                .ok (s, { st with
                          symtab := tblInsert (tblInsert st.symtab s tSrc) var tSrc,
                          calls := c })
      else
        match tblLookup st.symtab var with
        | some _ => .ok (s, st)
        | none =>
            match ask_type o var st.calls with
            | .error e => .error e
            | .ok (tv, c) =>
                .ok (s, { st with symtab := tblInsert st.symtab var tv, calls := c })

/-! ### Surface syntax

The parse trees the grammar (parser.py lines 118-329) recognises.  Assignment
statements distinguish the three productions of `p_statement_assign_simple` /
`p_statement_assign_expr`: PLY resolves the shift/reduce conflict after
`ID ASSIGN NUMBER` / `ID ASSIGN ID` with lookahead `;` in favour of shifting,
so a bare number or identifier right-hand side takes the simple production and
never passes through the expression rules.  Likewise `RETURN ID ;` and
`RETURN NUMBER ;` shift, so a bare returned identifier never reaches
`p_factor_id`. -/

inductive SExpr where
  | num (v : PyVal)
  | id (x : String)
  | bin (l : SExpr) (op : String) (r : SExpr)
  | paren (e : SExpr)
  deriving DecidableEq, Repr

/-- A relational condition `expression relop expression` (p_condition). -/
structure SCond where
  lhs : SExpr
  op : String
  rhs : SExpr
  deriving DecidableEq, Repr

/-- Right-hand side of a `for` header assignment (p_for_init_opt /
p_for_update_opt productions). -/
inductive SRhs where
  | rnum (v : PyVal)
  | rid (x : String)
  | rexpr (e : SExpr)
  deriving DecidableEq, Repr

inductive SStmt where
  | assignNum (var : String) (v : PyVal)
  | assignId (var src : String)
  | assignExpr (var : String) (e : SExpr)
  | sIf (c : SCond) (body : List SStmt)
  | sWhile (c : SCond) (body : List SStmt)
  | sFor (ini : Option (String × SRhs)) (c : Option SCond) (upd : Option (String × SRhs))
      (body : List SStmt)
  | sRet (r : SRhs)

/-- A whole surface program: `fn NAME ( params ) { body }` (p_function). -/
structure SProg where
  name : String
  params : List String
  body : List SStmt

/-! ### AST nodes built by the actions -/

inductive CStmt where
  | assign (var value : String)
  | cIf (cond : String) (body : List CStmt)
  | cWhile (cond : String) (body : List CStmt)
  | cFor (ini : Option (String × String)) (cond : Option String) (upd : Option (String × String))
      (body : List CStmt)
  | ret (value : String)

/-- The function node `p_function` builds. -/
structure CFun where
  name : String
  params : List String
  body : List CStmt
  return_type : String

/-- The reserved symbol-table key for the pending return type. -/
def returnKey : String := "__return_type__"

/-- The fixed name under which the return type is requested from the oracle. -/
def returnAskName : String := "function_return_type"

/-- Side effects and result of reducing an expression.  `p_factor_id`
(parser.py lines 303-309) gives every identifier factor a symbol-table entry,
resolving it through the oracle when absent, in left-to-right reduction order;
the number, binop and grouping rules only build the flattened string. -/
def processExpr (o : Oracle) : SExpr → PState → Except String (String × PState)
  | .num v, st => .ok (strOf v, st)
  | .id x, st =>
      match tblLookup st.symtab x with
      | some _ => .ok (x, st)
      | none =>
          match ask_type o x st.calls with
          | .error e => .error e
          | .ok (t, c) => .ok (x, { st with symtab := tblInsert st.symtab x t, calls := c })
  | .bin l op r, st => do
      let (sl, st1) ← processExpr o l st
      let (sr, st2) ← processExpr o r st1
      .ok (sl ++ " " ++ op ++ " " ++ sr, st2)
  | .paren e, st => do
      let (s1, st1) ← processExpr o e st
      .ok ("(" ++ s1 ++ ")", st1)

/-- The flattened text of an expression, independent of any state. -/
def flattenE : SExpr → String
  | .num v => strOf v
  | .id x => x
  | .bin l op r => flattenE l ++ " " ++ op ++ " " ++ flattenE r
  | .paren e => "(" ++ flattenE e ++ ")"

/-- Reducing a condition (p_condition, lines 317-324): left expression first,
then right, then the flattened `lhs op rhs` string. -/
def processCond (o : Oracle) (c : SCond) (st : PState) : Except String (String × PState) := do
  let (sl, st1) ← processExpr o c.lhs st
  let (sr, st2) ← processExpr o c.rhs st1
  .ok (sl ++ " " ++ c.op ++ " " ++ sr, st2)

/-- The `for` header assignment actions (p_for_init_opt lines 215-228 and
p_for_update_opt lines 237-251, which have identical bodies): the computed
`is_expr` flag is false for numbers, and for strings exactly when the string is
an identifier. -/
def processForAssign (o : Oracle) (var : String) (rhs : SRhs) (st : PState) :
    Except String ((String × String) × PState) :=
  match rhs with
  | .rnum v => do
      let (norm, st1) ← handle_assignment o var v false st
      .ok ((var, norm), st1)
  | .rid x => do
      let (norm, st1) ← handle_assignment o var (.vStr x) (!(isPyIdentifier x)) st
      .ok ((var, norm), st1)
  | .rexpr e => do
      let (flat, st1) ← processExpr o e st
      let (norm, st2) ← handle_assignment o var (.vStr flat) (!(isPyIdentifier flat)) st1
      .ok ((var, norm), st2)

/-- The optional `for` header assignment (p_for_init_opt / p_for_update_opt
with the `empty` production). -/
def processForOpt (o : Oracle) : Option (String × SRhs) → PState →
    Except String (Option (String × String) × PState)
  | none, st => .ok (none, st)
  | some (v, r), st => do
      let (a, st1) ← processForAssign o v r st
      .ok (some a, st1)

/-- The optional `for` condition (p_condition_opt). -/
def processCondOpt (o : Oracle) : Option SCond → PState →
    Except String (Option String × PState)
  | none, st => .ok (none, st)
  | some c, st => do
      let (s1, st1) ← processCond o c st
      .ok (some s1, st1)

/-- Mirrors `p_statement_return` (lines 254-273): set `has_return`, then, only
when the reserved key is not yet present, record the inferred shape of the
returned value, or — when no shape is inferable — the oracle's answer for the
fixed name `function_return_type`. -/
def processReturn (o : Oracle) (retVal : PyVal) (st : PState) : Except String (CStmt × PState) :=
  let st0 : PState := { st with hasReturn := true }
  match tblLookup st0.symtab returnKey with
  | some _ => .ok (.ret (strOf retVal), st0)
  | none =>
      match infer_type retVal with
      | some t => .ok (.ret (strOf retVal), { st0 with symtab := tblInsert st0.symtab returnKey t })
      | none =>
          match ask_type o returnAskName st0.calls with
          | .error e => .error e
          | .ok (t, c) =>
              .ok (.ret (strOf retVal),
                   { st0 with symtab := tblInsert st0.symtab returnKey t, calls := c })

mutual

/-- The semantic actions of one statement, in LALR reduction order: nested
constituents (conditions, `for` header parts, body statements) act before the
enclosing statement's own rule. -/
def processStmt (o : Oracle) : SStmt → PState → Except String (CStmt × PState)
  | .assignNum var v, st => do
      let (norm, st1) ← handle_assignment o var v false st
      .ok (.assign var norm, st1)
  | .assignId var src, st => do
      let (norm, st1) ← handle_assignment o var (.vStr src) false st
      .ok (.assign var norm, st1)
  | .assignExpr var e, st => do
      let (flat, st1) ← processExpr o e st
      let (norm, st2) ← handle_assignment o var (.vStr flat) true st1
      .ok (.assign var norm, st2)
  | .sIf c body, st => do
      let (cs, st1) ← processCond o c st
      let (bs, st2) ← processStmts o body st1
      .ok (.cIf cs bs, st2)
  | .sWhile c body, st => do
      let (cs, st1) ← processCond o c st
      let (bs, st2) ← processStmts o body st1
      .ok (.cWhile cs bs, st2)
  | .sFor ini c upd body, st => do
      let (iniC, st1) ← processForOpt o ini st
      let (condC, st2) ← processCondOpt o c st1
      let (updC, st3) ← processForOpt o upd st2
      let (bs, st4) ← processStmts o body st3
      .ok (.cFor iniC condC updC bs, st4)
  | .sRet r, st =>
      match r with
      | .rnum v => processReturn o v st
      | .rid x => processReturn o (.vStr x) st
      | .rexpr e => do
          let (flat, st1) ← processExpr o e st
          processReturn o (.vStr flat) st1

/-- A statement list, left to right (p_stmt_list). -/
def processStmts (o : Oracle) : List SStmt → PState → Except String (List CStmt × PState)
  | [], st => .ok ([], st)
  | s :: rest, st => do
      let (c, st1) ← processStmt o s st
      let (cs, st2) ← processStmts o rest st1
      .ok (c :: cs, st2)

end

/-- `p_function`'s backfill loop (lines 136-138): give every parameter missing
from the symbol table an oracle-resolved entry, in parameter order. -/
def backfillParams (o : Oracle) : List String → PState → Except String PState
  | [], st => .ok st
  | p :: ps, st =>
      match tblLookup st.symtab p with
      | some _ => backfillParams o ps st
      | none =>
          match ask_type o p st.calls with
          | .error e => .error e
          | .ok (t, c) =>
              backfillParams o ps { st with symtab := tblInsert st.symtab p t, calls := c }

/-- Mirrors `p_function` (lines 123-146): after the body's actions, promote the
reserved return-type entry (popping it) or default to "void", then backfill
parameter types. -/
def p_function (o : Oracle) (name : String) (params : List String) (body : List SStmt)
    (st : PState) : Except String (CFun × PState) := do
  let (bodyC, stB) ← processStmts o body st
  let pr : String × PState :=
    if stB.hasReturn && tblMem stB.symtab returnKey then
      -- the guard makes the lookup a hit, so the default is never used
      ((tblLookup stB.symtab returnKey).getD "void",
       { stB with symtab := tblErase stB.symtab returnKey })
    else ("void", stB)
  let st2 ← backfillParams o params pr.2
  .ok ({ name := name, params := params, body := bodyC, return_type := pr.1 }, st2)

/-- The fresh state `parse_code` (lines 29-34) creates: cleared table, cleared
return flag (and a zeroed invocation counter). -/
def initState : PState := { symtab := [], hasReturn := false, calls := 0 }

/-- Parse a surface program from the fresh state (p_program wraps the single
function). -/
def parseProgram (o : Oracle) (sp : SProg) : Except String (CFun × PState) :=
  p_function o sp.name sp.params sp.body initState

/-- `parse_code` (lines 29-34): the leftover global state `g` from any earlier
run is discarded by the reset `symbol_table = {}` / `has_return = False`
before parsing. -/
def parse_code (o : Oracle) (sp : SProg) (_g : PState) : Except String (CFun × PState) :=
  parseProgram o sp

/-! ### Code generation (parser.py lines 343-440, control_flow/if.py, control_flow/for.py)

The `declared` parameter of `generate_cpp` is threaded through the Python code
but never read by any branch, so it is omitted here. -/

/-- `n` spaces. -/
def spaces (n : Nat) : String := String.mk (List.replicate n ' ')

/-- `_format_for_assignment` (lines 345-352): always `var = value`, never a
declaration. -/
def fmtForPart : Option (String × String) → String
  | none => ""
  | some (v, val) => v ++ " = " ++ val

/-- The condition slot of a `for` header (for.py line 20). -/
def fmtForCond : Option String → String
  | none => ""
  | some c => c

/-- `generate_if_cpp` from control_flow/if.py: header line plus braced body. -/
def generate_if_cpp (cond bodyText : String) (indent : Nat) : String :=
  spaces (indent * 4) ++ "if (" ++ cond ++ ") \x7b\n" ++ bodyText ++ spaces (indent * 4) ++ "\x7d\n"

/-- Modelled from the spec: control_flow/while.py is imported by parser.py but
is not under src; spec §4.4 renders `while` as a header line plus a braced
recursive body, parallel to the `if` renderer. -/
def generate_while_cpp (cond bodyText : String) (indent : Nat) : String :=
  spaces (indent * 4) ++ "while (" ++ cond ++ ") \x7b\n" ++ bodyText ++ spaces (indent * 4)
    ++ "\x7d\n"

/-- `generate_for_cpp` from control_flow/for.py: the init and update slots are
rendered through `_format_for_assignment` with no type declaration, the
variable having been declared at function start. -/
def generate_for_cpp (ini : Option (String × String)) (cond : Option String)
    (upd : Option (String × String)) (bodyText : String) (indent : Nat) : String :=
  spaces (indent * 4) ++ "for (" ++ fmtForPart ini ++ "; " ++ fmtForCond cond ++ "; "
    ++ fmtForPart upd ++ ") \x7b\n" ++ bodyText ++ spaces (indent * 4) ++ "\x7d\n"

mutual

/-- The statement branches of `generate_cpp` (lines 401-427); statement
rendering is pure: only the function branch touches the symbol table. -/
def genStmt (s : CStmt) (indent : Nat) : String :=
  match s with
  | .assign var value => spaces (indent * 4) ++ var ++ " = " ++ value ++ ";\n"
  | .cIf cond body => generate_if_cpp cond (genStmts body (indent + 1)) indent
  | .cWhile cond body => generate_while_cpp cond (genStmts body (indent + 1)) indent
  | .cFor ini cond upd body => generate_for_cpp ini cond upd (genStmts body (indent + 1)) indent
  | .ret value => spaces (indent * 4) ++ "return " ++ value ++ ";\n"

/-- Concatenated rendering of a statement list. -/
def genStmts (l : List CStmt) (indent : Nat) : String :=
  match l with
  | [] => ""
  | s :: rest => genStmt s indent ++ genStmts rest indent

end

/-- The parameter-signature loop of the function branch (lines 369-376): look
each parameter up, falling back to the oracle when the entry is missing or
empty, and build the `dtype param` pieces in order. -/
def buildParamSig (o : Oracle) : List String → PState → Except String (List String × PState)
  | [], st => .ok ([], st)
  | p :: ps, st => do
      let dtype0 := (tblLookup st.symtab p).getD ""
      let (dtype, st1) ←
        if dtype0 = "" then
          match ask_type o p st.calls with
          | .error e => Except.error e
          | .ok (t, c) =>
              Except.ok (t, { st with symtab := tblInsert st.symtab p t, calls := c })
        else Except.ok (dtype0, st)
      let (rest, st2) ← buildParamSig o ps st1
      .ok ((dtype ++ " " ++ p) :: rest, st2)

/-- The declaration harvest (lines 383-388): every symbol-table entry that is
not a parameter and has a non-empty type, in table iteration order.  (The
growing `func_declared` set in the source only skips duplicate keys, which a
dict cannot contain, so it is equivalent to excluding the parameters.) -/
def varsToDeclare (tbl : List (String × String)) (params : List String) :
    List (String × String) :=
  tbl.filter (fun kv => !(params.contains kv.1) && kv.2 != "")

/-- The hoisted declaration block (lines 390-395): one line per harvested
variable at one extra indent level, then a blank separator line when any
declaration was emitted. -/
def declBlock (vtd : List (String × String)) (indent : Nat) : String :=
  match vtd with
  | [] => ""
  | _ =>
      String.join (vtd.map (fun kv => spaces ((indent + 1) * 4) ++ kv.2 ++ " " ++ kv.1 ++ ";\n"))
        ++ "\n"

/-- The function branch of `generate_cpp` (lines 365-399): signature, hoisted
declarations, then the rendered body, followed by the closing brace. -/
def generate_function (o : Oracle) (f : CFun) (indent : Nat) (st : PState) :
    Except String (String × PState) := do
  let (parts, st1) ← buildParamSig o f.params st
  let sig := f.return_type ++ " " ++ f.name ++ "(" ++ String.intercalate ", " parts ++ ") \x7b\n"
  .ok (sig ++ declBlock (varsToDeclare st1.symtab f.params) indent
        ++ genStmts f.body (indent + 1) ++ "\x7d\n\n", st1)

/-- The fixed preamble of `to_cpp` (line 432). -/
def cppHeader : String := "#include <bits/stdc++.h>\nusing namespace std;\n\n"

/-- The synthesized entry point of `to_cpp` (lines 434-439). -/
def cppMain (fname : String) : String :=
  "int main() \x7b\n    " ++ fname ++ "();\n    return 0;\n\x7d\n"

/-- `to_cpp` (lines 430-440): preamble, the translated function (generated at
indent 0 from the post-parse symbol table), and the entry point. -/
def to_cpp (o : Oracle) (f : CFun) (st : PState) : Except String (String × PState) := do
  let (body, st1) ← generate_function o f 0 st
  .ok (cppHeader ++ body ++ cppMain f.name, st1)

/-- One whole `parse → emit` run from a fresh state. -/
def run (o : Oracle) (sp : SProg) : Except String String := do
  let (f, st) ← parseProgram o sp
  let (text, _) ← to_cpp o f st
  .ok text

/-- One whole run through `parse_code`, starting from leftover global state
`g`. -/
def runFrom (o : Oracle) (sp : SProg) (g : PState) : Except String String := do
  let (f, st) ← parse_code o sp g
  let (text, _) ← to_cpp o f st
  .ok text

/-! ### Identifier bookkeeping over the surface syntax -/

/-- The identifiers occurring as factors of an expression, in reduction order. -/
def exprIds : SExpr → List String
  | .num _ => []
  | .id x => [x]
  | .bin l _ r => exprIds l ++ exprIds r
  | .paren e => exprIds e

/-- The identifiers occurring in a condition. -/
def condIds (c : SCond) : List String := exprIds c.lhs ++ exprIds c.rhs

/-- The symbol-table keys `handle_assignment` guarantees are present after it
succeeds: the target, plus the source identifier in the propagation branch. -/
def writesAssign (var : String) (v : PyVal) (is_expression : Bool) : List String :=
  match v with
  | .vInt _ | .vFloat _ => [var]
  | .vStr s => if !is_expression && isPyIdentifier s then [var, s] else [var]

/-- The keys a `for` header assignment guarantees are present. -/
def writesForAssign (var : String) (r : SRhs) : List String :=
  match r with
  | .rnum v => writesAssign var v false
  | .rid x => writesAssign var (.vStr x) (!(isPyIdentifier x))
  | .rexpr e => exprIds e ++ writesAssign var (.vStr (flattenE e)) (!(isPyIdentifier (flattenE e)))

/-- The keys an optional `for` header assignment guarantees are present. -/
def writesForOpt : Option (String × SRhs) → List String
  | none => []
  | some (v, r) => writesForAssign v r

/-- The identifiers of an optional condition. -/
def condIdsOpt : Option SCond → List String
  | none => []
  | some c => condIds c

mutual

/-- The symbol-table keys (other than the reserved return key) whose presence a
statement's actions guarantee.  A bare `return ID ;` guarantees nothing: its
identifier never reaches `p_factor_id`. -/
def writesOf : SStmt → List String
  | .assignNum var v => writesAssign var v false
  | .assignId var src => writesAssign var (.vStr src) false
  | .assignExpr var e => exprIds e ++ [var]
  | .sIf c b => condIds c ++ writesL b
  | .sWhile c b => condIds c ++ writesL b
  | .sFor ini c upd b => writesForOpt ini ++ condIdsOpt c ++ writesForOpt upd ++ writesL b
  | .sRet (.rnum _) => []
  | .sRet (.rid _) => []
  | .sRet (.rexpr e) => exprIds e

/-- Union of `writesOf` over a statement list. -/
def writesL : List SStmt → List String
  | [] => []
  | s :: rest => writesOf s ++ writesL rest

end

mutual

/-- Whether a statement is or contains a `return` (sets `has_return`). -/
def containsRet : SStmt → Bool
  | .assignNum _ _ => false
  | .assignId _ _ => false
  | .assignExpr _ _ => false
  | .sIf _ b => containsRetL b
  | .sWhile _ b => containsRetL b
  | .sFor _ _ _ b => containsRetL b
  | .sRet _ => true

/-- Whether a statement list contains a `return`. -/
def containsRetL : List SStmt → Bool
  | [] => false
  | s :: rest => containsRet s || containsRetL rest

end

/-- Every type label stored in the table is one of the valid labels. -/
def allValid (t : List (String × String)) : Prop := ∀ kv ∈ t, kv.2 ∈ valid_dtypes

/-! ### Claim-support definitions -/

/-- The identifiers rendered from a `for` header right-hand side. -/
def usedRhsIds : SRhs → List String
  | .rnum _ => []
  | .rid x => [x]
  | .rexpr e => exprIds e

mutual

/-- Every identifier that appears in the rendered body text of a statement:
assignment targets and right-hand identifiers, expression identifiers,
loop-header variables, and the identifier of a bare `return ID ;`. -/
def usedTextIds : SStmt → List String
  | .assignNum var _ => [var]
  | .assignId var src => [var, src]
  | .assignExpr var e => var :: exprIds e
  | .sIf c b => condIds c ++ usedTextIdsL b
  | .sWhile c b => condIds c ++ usedTextIdsL b
  | .sFor ini c upd b =>
      (match ini with
       | none => []
       | some (v, r) => v :: usedRhsIds r)
        ++ condIdsOpt c
        ++ (match upd with
            | none => []
            | some (v, r) => v :: usedRhsIds r)
        ++ usedTextIdsL b
  | .sRet (.rnum _) => []
  | .sRet (.rid x) => [x]
  | .sRet (.rexpr e) => exprIds e

/-- Union of `usedTextIds` over a statement list. -/
def usedTextIdsL : List SStmt → List String
  | [] => []
  | s :: rest => usedTextIds s ++ usedTextIdsL rest

end

/-- The declaration-hoisting claim, as stated, checked on one program: after a
successful parse and parameter-signature build, every identifier used inside
the function body has exactly one hoisted declaration line.  Vacuously true
when parse or signature build fails (no output is generated then). -/
def c4_claim_holds (o : Oracle) (sp : SProg) : Bool :=
  match parseProgram o sp with
  | .error _ => true
  | .ok (f, stP) =>
      match buildParamSig o f.params stP with
      | .error _ => true
      | .ok (_, st1) =>
          (usedTextIdsL sp.body).all
            (fun v => (varsToDeclare st1.symtab f.params).countP (fun kv => kv.1 == v) == 1)

/-- The provider-invocation count of a parse result (instrumentation). -/
def resultCalls : Except String (CFun × PState) → Option Nat
  | .ok (_, st) => some st.calls
  | .error _ => none

/-- A parse-and-emit run that also reports how often the provider was
invoked over the whole run. -/
def runWithCalls (o : Oracle) (sp : SProg) : Except String (String × Nat) := do
  let (f, st) ← parseProgram o sp
  let (text, st2) ← to_cpp o f st
  .ok (text, st2.calls)

/-- A total oracle answering "int" to every query. -/
def oracleInt : Oracle := some (fun _ => some "int")

/-- Spec §8 scenario 2: `fn f() \x7b x = 5; y = x; return y; \x7d`. -/
def progC2 : SProg :=
  ⟨"f", [], [.assignNum "x" (.vInt 5), .assignId "y" "x", .sRet (.rid "y")]⟩

/-- A program containing the pair `a = 5; b = a;` followed by a re-assignment
`a = 2.5;` of the source variable. -/
def progC3ce : SProg :=
  ⟨"f", [], [.assignNum "a" (.vInt 5), .assignId "b" "a", .assignNum "a" (.vFloat "2.5")]⟩

/-- The program `fn f() \x7b return y; \x7d`: a bare returned identifier. -/
def progBareReturn : SProg := ⟨"f", [], [.sRet (.rid "y")]⟩

/-- Spec §8 scenario 3: a `for` loop whose accumulator is oracle-resolved. -/
def progForLoop : SProg :=
  ⟨"f", [],
    [.sFor (some ("i", .rnum (.vInt 0)))
        (some ⟨SExpr.id "i", "<", SExpr.num (PyVal.vInt 10)⟩)
        (some ("i", .rexpr (.bin (.id "i") "+" (.num (.vInt 1)))))
        [.assignExpr "s" (.bin (.id "s") "+" (.id "i"))],
     .sRet (.rid "s")]⟩

/-- The function node the parse of `progForLoop` produces. -/
def funForLoop : CFun :=
  ⟨"f", [],
    [CStmt.cFor (some ("i", "0")) (some "i < 10") (some ("i", "i + 1"))
        [CStmt.assign "s" "s + i"],
     CStmt.ret "s"], "int"⟩

/-- The symbol-table state the parse of `progForLoop` leaves. -/
def stForLoop : PState := ⟨[("i", "int"), ("s", "int")], true, 2⟩

/-- A function with no `return` statement. -/
def progNoReturn : SProg := ⟨"g", [], [.assignNum "x" (.vInt 1)]⟩

/-! ### Table lemmas -/

theorem tblLookup_insert_self (t : List (String × String)) (k v : String) :
    tblLookup (tblInsert t k v) k = some v := by
  induction t with
  | nil => simp [tblInsert, tblLookup]
  | cons hd tl ih =>
      obtain ⟨k0, v0⟩ := hd
      by_cases h : k0 = k <;> simp [tblInsert, tblLookup, h, ih]

theorem tblLookup_insert_ne (t : List (String × String)) (k v k' : String) (h : k' ≠ k) :
    tblLookup (tblInsert t k v) k' = tblLookup t k' := by
  induction t with
  | nil => simp [tblInsert, tblLookup, Ne.symm h]
  | cons hd tl ih =>
      obtain ⟨k0, v0⟩ := hd
      by_cases h0 : k0 = k
      · simp [tblInsert, tblLookup, h0, Ne.symm h]
      · by_cases h1 : k0 = k' <;> simp [tblInsert, tblLookup, h0, h1, h, ih]

theorem tblLookup_insert_isSome (t : List (String × String)) (k v k' : String) :
    (tblLookup (tblInsert t k v) k').isSome = true ↔
      (k' = k ∨ (tblLookup t k').isSome = true) := by
  by_cases h : k' = k
  · subst h; simp [tblLookup_insert_self]
  · simp [tblLookup_insert_ne t k v k' h, h]

theorem tblLookup_erase_ne (t : List (String × String)) (k k' : String) (h : k' ≠ k) :
    tblLookup (tblErase t k) k' = tblLookup t k' := by
  induction t with
  | nil => simp [tblErase]
  | cons hd tl ih =>
      obtain ⟨k0, v0⟩ := hd
      by_cases h0 : k0 = k
      · simp [tblErase, tblLookup, h0, Ne.symm h]
      · by_cases h1 : k0 = k' <;> simp [tblErase, tblLookup, h0, h1, h, ih]

theorem tblErase_sublist (t : List (String × String)) (k : String) :
    List.Sublist (tblErase t k) t := by
  induction t with
  | nil => simp [tblErase]
  | cons hd tl ih =>
      obtain ⟨k0, v0⟩ := hd
      by_cases h0 : k0 = k
      · simp [tblErase, h0]
      · simpa [tblErase, h0] using List.Sublist.cons₂ (k0, v0) ih

theorem tblLookup_none_iff (t : List (String × String)) (k : String) :
    tblLookup t k = none ↔ k ∉ tblKeys t := by
  induction t with
  | nil => simp [tblLookup, tblKeys]
  | cons hd tl ih =>
      obtain ⟨k0, v0⟩ := hd
      by_cases h0 : k0 = k
      · subst h0
        simp [tblLookup, tblKeys]
      · simp [tblLookup, tblKeys, h0, Ne.symm h0, ih]

theorem tblKeys_insert (t : List (String × String)) (k v : String) :
    tblKeys (tblInsert t k v) =
      if (tblLookup t k).isSome = true then tblKeys t else tblKeys t ++ [k] := by
  induction t with
  | nil => simp [tblInsert, tblKeys, tblLookup]
  | cons hd tl ih =>
      obtain ⟨k0, v0⟩ := hd
      by_cases h0 : k0 = k
      · simp [tblInsert, tblKeys, tblLookup, h0]
      · have e1 : tblInsert ((k0, v0) :: tl) k v = (k0, v0) :: tblInsert tl k v := by
          simp [tblInsert, h0]
        have e2 : tblLookup ((k0, v0) :: tl) k = tblLookup tl k := by
          simp [tblLookup, h0]
        rw [e1, e2, show tblKeys ((k0, v0) :: tblInsert tl k v)
              = k0 :: tblKeys (tblInsert tl k v) from rfl, ih]
        by_cases h1 : (tblLookup tl k).isSome = true <;> simp [h1, tblKeys]

theorem tblKeys_insert_nodup (t : List (String × String)) (k v : String)
    (h : List.Nodup (tblKeys t)) : List.Nodup (tblKeys (tblInsert t k v)) := by
  rw [tblKeys_insert]
  by_cases h1 : (tblLookup t k).isSome = true
  · simpa [h1] using h
  · have h2 : tblLookup t k = none := by
      cases hx : tblLookup t k
      · rfl
      · rw [hx] at h1; simp at h1
    have hk : k ∉ tblKeys t := (tblLookup_none_iff t k).mp h2
    rw [if_neg h1]
    refine List.Nodup.append h (by simp) ?_
    intro a ha hb
    simp only [List.mem_singleton] at hb
    subst hb
    exact hk ha

theorem tblLookup_mem (t : List (String × String)) (k v : String)
    (h : tblLookup t k = some v) : (k, v) ∈ t := by
  induction t with
  | nil => simp [tblLookup] at h
  | cons hd tl ih =>
      obtain ⟨k0, v0⟩ := hd
      by_cases h0 : k0 = k
      · subst h0
        simp [tblLookup] at h
        simp [h]
      · simp only [tblLookup, if_neg h0] at h
        exact List.mem_cons_of_mem _ (ih h)

theorem mem_tblInsert (t : List (String × String)) (k v : String) (kv : String × String)
    (h : kv ∈ tblInsert t k v) : kv.2 = v ∨ kv ∈ t := by
  induction t with
  | nil =>
      simp [tblInsert] at h
      exact Or.inl (by simp [h])
  | cons hd tl ih =>
      obtain ⟨k0, v0⟩ := hd
      by_cases h0 : k0 = k
      · rw [show tblInsert ((k0, v0) :: tl) k v = (k0, v) :: tl by simp [tblInsert, h0]] at h
        rcases List.mem_cons.mp h with h1 | h1
        · exact Or.inl (by rw [h1])
        · exact Or.inr (List.mem_cons_of_mem _ h1)
      · rw [show tblInsert ((k0, v0) :: tl) k v = (k0, v0) :: tblInsert tl k v by
            simp [tblInsert, h0]] at h
        rcases List.mem_cons.mp h with h1 | h1
        · exact Or.inr (by rw [h1]; exact List.mem_cons_self _ _)
        · rcases ih h1 with h2 | h2
          · exact Or.inl h2
          · exact Or.inr (List.mem_cons_of_mem _ h2)

theorem allValid_insert (t : List (String × String)) (k v : String)
    (ht : allValid t) (hv : v ∈ valid_dtypes) : allValid (tblInsert t k v) := by
  intro kv hkv
  rcases mem_tblInsert t k v kv hkv with h | h
  · rw [h]; exact hv
  · exact ht kv h

theorem allValid_sublist (t t' : List (String × String)) (h : List.Sublist t' t)
    (ht : allValid t) : allValid t' := fun kv hkv => ht kv (h.mem hkv)

theorem allValid_lookup (t : List (String × String)) (k v : String)
    (ht : allValid t) (h : tblLookup t k = some v) : v ∈ valid_dtypes :=
  ht (k, v) (tblLookup_mem t k v h)

/-! ### Resolver lemmas -/

theorem ask_type_none_oracle (var : String) (c : Nat) : ask_type none var c = .error var := rfl

theorem ask_type_ok (o : Oracle) (var : String) (c : Nat) (t : String) (c' : Nat)
    (h : ask_type o var c = .ok (t, c')) : t ∈ valid_dtypes ∧ c' = c + 1 := by
  match o with
  | none => simp [ask_type] at h
  | some f =>
      cases hf : f var with
      | none => simp [ask_type, hf] at h
      | some raw =>
          by_cases hc : pyStrip raw ∈ valid_dtypes
          · simp only [ask_type, hf, if_pos hc, Except.ok.injEq, Prod.mk.injEq] at h
            exact ⟨h.1 ▸ hc, h.2.symm⟩
          · simp [ask_type, hf, hc] at h

theorem exceptBind_ok {α β : Type} (x : Except String α) (f : α → Except String β) (b : β)
    (h : (x >>= f) = .ok b) : ∃ a, x = .ok a ∧ f a = .ok b := by
  cases x with
  | error e => simp [bind, Except.bind] at h
  | ok a => exact ⟨a, rfl, by simpa [bind, Except.bind] using h⟩

/-- `infer_type` only ever answers one of the valid labels. -/
theorem infer_type_valid (v : PyVal) (t : String) (h : infer_type v = some t) :
    t ∈ valid_dtypes := by
  match v with
  | .vInt n => simp [infer_type] at h; simp [← h, valid_dtypes]
  | .vFloat r => simp [infer_type] at h; simp [← h, valid_dtypes]
  | .vStr s =>
      simp only [infer_type] at h
      by_cases h1 : strStartsWith s dq && strEndsWith s dq
      · rw [if_pos h1] at h
        simp at h
        simp [← h, valid_dtypes]
      · rw [if_neg h1] at h
        by_cases h2 : strStartsWith s sq && strEndsWith s sq
        · rw [if_pos h2] at h
          simp at h
          simp [← h, valid_dtypes]
        · rw [if_neg h2] at h
          simp at h

/-- What `handle_assignment` guarantees on success: the return flag is
untouched, the keys present afterwards are the old keys plus `writesAssign`,
and key-uniqueness and label-validity of the table are preserved. -/
theorem handle_assignment_key (o : Oracle) (var : String) (v : PyVal) (b : Bool)
    (st : PState) (r : String) (st' : PState)
    (h : handle_assignment o var v b st = .ok (r, st')) :
    st'.hasReturn = st.hasReturn ∧
    (∀ k, (tblLookup st'.symtab k).isSome = true ↔
      ((tblLookup st.symtab k).isSome = true ∨ k ∈ writesAssign var v b)) ∧
    (List.Nodup (tblKeys st.symtab) → List.Nodup (tblKeys st'.symtab)) ∧
    (allValid st.symtab → allValid st'.symtab) := by
  match v with
  | .vInt n =>
      simp only [handle_assignment, infer_type, Except.ok.injEq, Prod.mk.injEq] at h
      obtain ⟨h1, h2⟩ := h
      have hsym : st'.symtab = tblInsert st.symtab var "int" := by rw [← h2]
      have hret : st'.hasReturn = st.hasReturn := by rw [← h2]
      have hw : writesAssign var (.vInt n) b = [var] := by simp [writesAssign]
      refine ⟨hret, ?_, ?_, ?_⟩
      · intro k
        rw [hsym, tblLookup_insert_isSome, hw]
        simp only [List.mem_singleton]
        tauto
      · intro hn; rw [hsym]; exact tblKeys_insert_nodup _ _ _ hn
      · intro hv; rw [hsym]; exact allValid_insert _ _ _ hv (by simp [valid_dtypes])
  | .vFloat s =>
      simp only [handle_assignment, infer_type, Except.ok.injEq, Prod.mk.injEq] at h
      obtain ⟨h1, h2⟩ := h
      have hsym : st'.symtab = tblInsert st.symtab var "float" := by rw [← h2]
      have hret : st'.hasReturn = st.hasReturn := by rw [← h2]
      have hw : writesAssign var (.vFloat s) b = [var] := by simp [writesAssign]
      refine ⟨hret, ?_, ?_, ?_⟩
      · intro k
        rw [hsym, tblLookup_insert_isSome, hw]
        simp only [List.mem_singleton]
        tauto
      · intro hn; rw [hsym]; exact tblKeys_insert_nodup _ _ _ hn
      · intro hv; rw [hsym]; exact allValid_insert _ _ _ hv (by simp [valid_dtypes])
  | .vStr s =>
      by_cases hb : (!b && isPyIdentifier s) = true
      · have hw : writesAssign var (.vStr s) b = [var, s] := by simp [writesAssign, hb]
        rw [show handle_assignment o var (.vStr s) b st =
              (match tblLookup st.symtab s with
               | some tv => .ok (s, { st with symtab := tblInsert st.symtab var tv })
               | none =>
                   match ask_type o s st.calls with
                   | .error e => .error e
                   | .ok (tSrc, c) =>
                       .ok (s, { st with
                                 symtab := tblInsert (tblInsert st.symtab s tSrc) var tSrc,
                                 calls := c })) by
            simp only [handle_assignment]
            rw [if_pos hb]] at h
        cases hs : tblLookup st.symtab s with
        | some tv =>
            rw [hs] at h
            obtain ⟨h1, h2⟩ := Prod.mk.injEq _ _ _ _ ▸ Except.ok.inj h
            have hsym : st'.symtab = tblInsert st.symtab var tv := by rw [← h2]
            have hret : st'.hasReturn = st.hasReturn := by rw [← h2]
            have hps : (tblLookup st.symtab s).isSome = true := by rw [hs]; rfl
            refine ⟨hret, ?_, ?_, ?_⟩
            · intro k
              rw [hsym, tblLookup_insert_isSome, hw]
              simp only [List.mem_cons, List.mem_singleton, List.not_mem_nil, or_false]
              constructor
              · rintro (h3 | h3)
                · exact Or.inr (Or.inl h3)
                · exact Or.inl h3
              · rintro (h3 | h3 | h3)
                · exact Or.inr h3
                · exact Or.inl h3
                · subst h3; exact Or.inr hps
            · intro hn; rw [hsym]; exact tblKeys_insert_nodup _ _ _ hn
            · intro hv; rw [hsym]; exact allValid_insert _ _ _ hv (allValid_lookup _ _ _ hv hs)
        | none =>
            rw [hs] at h
            cases ha : ask_type o s st.calls with
            | error e => rw [ha] at h; simp at h
            | ok p =>
                obtain ⟨tSrc, c⟩ := p
                rw [ha] at h
                obtain ⟨h1, h2⟩ := Prod.mk.injEq _ _ _ _ ▸ Except.ok.inj h
                have hsym : st'.symtab = tblInsert (tblInsert st.symtab s tSrc) var tSrc := by
                  rw [← h2]
                have hret : st'.hasReturn = st.hasReturn := by rw [← h2]
                have hval : tSrc ∈ valid_dtypes := (ask_type_ok o s st.calls tSrc c ha).1
                refine ⟨hret, ?_, ?_, ?_⟩
                · intro k
                  rw [hsym, tblLookup_insert_isSome, tblLookup_insert_isSome, hw]
                  simp only [List.mem_cons, List.mem_singleton, List.not_mem_nil, or_false]
                  tauto
                · intro hn; rw [hsym]
                  exact tblKeys_insert_nodup _ _ _ (tblKeys_insert_nodup _ _ _ hn)
                · intro hv; rw [hsym]
                  exact allValid_insert _ _ _ (allValid_insert _ _ _ hv hval) hval
      · have hw : writesAssign var (.vStr s) b = [var] := by simp [writesAssign, hb]
        rw [show handle_assignment o var (.vStr s) b st =
              (match tblLookup st.symtab var with
               | some _ => .ok (s, st)
               | none =>
                   match ask_type o var st.calls with
                   | .error e => .error e
                   | .ok (tv, c) =>
                       .ok (s, { st with symtab := tblInsert st.symtab var tv, calls := c })) by
            simp only [handle_assignment]
            rw [if_neg hb]] at h
        cases hv0 : tblLookup st.symtab var with
        | some tv =>
            rw [hv0] at h
            obtain ⟨h1, h2⟩ := Prod.mk.injEq _ _ _ _ ▸ Except.ok.inj h
            subst h2
            have hpv : (tblLookup st.symtab var).isSome = true := by rw [hv0]; rfl
            refine ⟨rfl, ?_, fun hn => hn, fun hv => hv⟩
            intro k
            rw [hw]
            simp only [List.mem_singleton]
            constructor
            · exact fun h3 => Or.inl h3
            · rintro (h3 | h3)
              · exact h3
              · subst h3; exact hpv
        | none =>
            rw [hv0] at h
            cases ha : ask_type o var st.calls with
            | error e => rw [ha] at h; simp at h
            | ok p =>
                obtain ⟨tv, c⟩ := p
                rw [ha] at h
                obtain ⟨h1, h2⟩ := Prod.mk.injEq _ _ _ _ ▸ Except.ok.inj h
                have hsym : st'.symtab = tblInsert st.symtab var tv := by rw [← h2]
                have hret : st'.hasReturn = st.hasReturn := by rw [← h2]
                have hval : tv ∈ valid_dtypes := (ask_type_ok o var st.calls tv c ha).1
                refine ⟨hret, ?_, ?_, ?_⟩
                · intro k
                  rw [hsym, tblLookup_insert_isSome, hw]
                  simp only [List.mem_singleton]
                  tauto
                · intro hn; rw [hsym]; exact tblKeys_insert_nodup _ _ _ hn
                · intro hv; rw [hsym]; exact allValid_insert _ _ _ hv hval

/-- What reducing an expression guarantees: the flattened text is the pure
`flattenE`, the return flag is untouched, the present keys grow by exactly the
expression's identifiers, and table invariants are preserved. -/
theorem processExpr_key (o : Oracle) (e : SExpr) :
    ∀ st r st', processExpr o e st = .ok (r, st') →
      r = flattenE e ∧
      st'.hasReturn = st.hasReturn ∧
      (∀ k, (tblLookup st'.symtab k).isSome = true ↔
        ((tblLookup st.symtab k).isSome = true ∨ k ∈ exprIds e)) ∧
      (List.Nodup (tblKeys st.symtab) → List.Nodup (tblKeys st'.symtab)) ∧
      (allValid st.symtab → allValid st'.symtab) := by
  induction e with
  | num v =>
      intro st r st' h
      simp only [processExpr, Except.ok.injEq, Prod.mk.injEq] at h
      obtain ⟨h1, h2⟩ := h
      subst h2
      exact ⟨h1.symm, rfl, fun k => by simp [exprIds], fun hn => hn, fun hv => hv⟩
  | id x =>
      intro st r st' h
      simp only [processExpr] at h
      cases hl : tblLookup st.symtab x with
      | some tv =>
          rw [hl] at h
          obtain ⟨h1, h2⟩ := Prod.mk.injEq _ _ _ _ ▸ Except.ok.inj h
          subst h2
          have hpx : (tblLookup st.symtab x).isSome = true := by rw [hl]; rfl
          refine ⟨h1.symm, rfl, ?_, fun hn => hn, fun hv => hv⟩
          intro k
          simp only [exprIds, List.mem_singleton]
          constructor
          · exact fun h3 => Or.inl h3
          · rintro (h3 | h3)
            · exact h3
            · subst h3; exact hpx
      | none =>
          rw [hl] at h
          cases ha : ask_type o x st.calls with
          | error e2 => rw [ha] at h; simp at h
          | ok p =>
              obtain ⟨t, c⟩ := p
              rw [ha] at h
              obtain ⟨h1, h2⟩ := Prod.mk.injEq _ _ _ _ ▸ Except.ok.inj h
              have hsym : st'.symtab = tblInsert st.symtab x t := by rw [← h2]
              have hret : st'.hasReturn = st.hasReturn := by rw [← h2]
              have hval : t ∈ valid_dtypes := (ask_type_ok o x st.calls t c ha).1
              refine ⟨h1.symm, hret, ?_, ?_, ?_⟩
              · intro k
                rw [hsym, tblLookup_insert_isSome]
                simp only [exprIds, List.mem_singleton]
                tauto
              · intro hn; rw [hsym]; exact tblKeys_insert_nodup _ _ _ hn
              · intro hv; rw [hsym]; exact allValid_insert _ _ _ hv hval
  | bin l op rr ihl ihr =>
      intro st r st' h
      simp only [processExpr] at h
      obtain ⟨⟨sl, st1⟩, hbl, h⟩ := exceptBind_ok _ _ _ h
      obtain ⟨⟨sr, st2⟩, hbr, h⟩ := exceptBind_ok _ _ _ h
      obtain ⟨h1, h2⟩ := Prod.mk.injEq _ _ _ _ ▸ Except.ok.inj h
      subst h2
      obtain ⟨hfl, hretl, hpl, hnl, hvl⟩ := ihl st sl st1 hbl
      obtain ⟨hfr, hretr, hpr, hnr, hvr⟩ := ihr st1 sr st2 hbr
      refine ⟨?_, by rw [hretr, hretl], ?_, fun hn => hnr (hnl hn), fun hv => hvr (hvl hv)⟩
      · rw [← h1, hfl, hfr]; rfl
      · intro k
        rw [hpr k, hpl k]
        simp only [exprIds, List.mem_append]
        tauto
  | paren e ih =>
      intro st r st' h
      simp only [processExpr] at h
      obtain ⟨⟨s1, st1⟩, hb1, h⟩ := exceptBind_ok _ _ _ h
      obtain ⟨h1, h2⟩ := Prod.mk.injEq _ _ _ _ ▸ Except.ok.inj h
      subst h2
      obtain ⟨hf1, hret1, hp1, hn1, hv1⟩ := ih st s1 st1 hb1
      refine ⟨?_, hret1, ?_, hn1, hv1⟩
      · rw [← h1, hf1]; rfl
      · intro k
        rw [hp1 k]
        simp only [exprIds]

/-- The same guarantees for conditions. -/
theorem processCond_key (o : Oracle) (c : SCond) (st : PState) (r : String) (st' : PState)
    (h : processCond o c st = .ok (r, st')) :
    st'.hasReturn = st.hasReturn ∧
    (∀ k, (tblLookup st'.symtab k).isSome = true ↔
      ((tblLookup st.symtab k).isSome = true ∨ k ∈ condIds c)) ∧
    (List.Nodup (tblKeys st.symtab) → List.Nodup (tblKeys st'.symtab)) ∧
    (allValid st.symtab → allValid st'.symtab) := by
  simp only [processCond] at h
  obtain ⟨⟨sl, st1⟩, hbl, h⟩ := exceptBind_ok _ _ _ h
  obtain ⟨⟨sr, st2⟩, hbr, h⟩ := exceptBind_ok _ _ _ h
  obtain ⟨h1, h2⟩ := Prod.mk.injEq _ _ _ _ ▸ Except.ok.inj h
  subst h2
  obtain ⟨hfl, hretl, hpl, hnl, hvl⟩ := processExpr_key o c.lhs st sl st1 hbl
  obtain ⟨hfr, hretr, hpr, hnr, hvr⟩ := processExpr_key o c.rhs st1 sr st2 hbr
  refine ⟨by rw [hretr, hretl], ?_, fun hn => hnr (hnl hn), fun hv => hvr (hvl hv)⟩
  intro k
  rw [hpr k, hpl k]
  simp only [condIds, List.mem_append]
  tauto

/-- The same guarantees for a `for` header assignment. -/
theorem processForAssign_key (o : Oracle) (var : String) (rhs : SRhs) (st : PState)
    (a : String × String) (st' : PState) (h : processForAssign o var rhs st = .ok (a, st')) :
    st'.hasReturn = st.hasReturn ∧
    (∀ k, (tblLookup st'.symtab k).isSome = true ↔
      ((tblLookup st.symtab k).isSome = true ∨ k ∈ writesForAssign var rhs)) ∧
    (List.Nodup (tblKeys st.symtab) → List.Nodup (tblKeys st'.symtab)) ∧
    (allValid st.symtab → allValid st'.symtab) := by
  match rhs with
  | .rnum v =>
      simp only [processForAssign] at h
      obtain ⟨⟨norm, st1⟩, hb1, h⟩ := exceptBind_ok _ _ _ h
      obtain ⟨h1, h2⟩ := Prod.mk.injEq _ _ _ _ ▸ Except.ok.inj h
      subst h2
      exact handle_assignment_key o var v false st norm st1 hb1
  | .rid x =>
      simp only [processForAssign] at h
      obtain ⟨⟨norm, st1⟩, hb1, h⟩ := exceptBind_ok _ _ _ h
      obtain ⟨h1, h2⟩ := Prod.mk.injEq _ _ _ _ ▸ Except.ok.inj h
      subst h2
      exact handle_assignment_key o var (.vStr x) (!(isPyIdentifier x)) st norm st1 hb1
  | .rexpr e =>
      simp only [processForAssign] at h
      obtain ⟨⟨flat, st1⟩, hb1, h⟩ := exceptBind_ok _ _ _ h
      obtain ⟨⟨norm, st2⟩, hb2, h⟩ := exceptBind_ok _ _ _ h
      obtain ⟨h1, h2⟩ := Prod.mk.injEq _ _ _ _ ▸ Except.ok.inj h
      subst h2
      obtain ⟨hf1, hret1, hp1, hn1, hv1⟩ := processExpr_key o e st flat st1 hb1
      subst hf1
      obtain ⟨hret2, hp2, hn2, hv2⟩ :=
        handle_assignment_key o var (.vStr (flattenE e)) (!(isPyIdentifier (flattenE e)))
          st1 norm st2 hb2
      refine ⟨by rw [hret2, hret1], ?_, fun hn => hn2 (hn1 hn), fun hv => hv2 (hv1 hv)⟩
      intro k
      rw [hp2 k, hp1 k]
      simp only [writesForAssign, List.mem_append]
      tauto

/-- What `p_statement_return` guarantees: the return flag is set, and exactly
the reserved key becomes (or stays) present. -/
theorem processReturn_key (o : Oracle) (rv : PyVal) (st : PState) (c : CStmt) (st' : PState)
    (h : processReturn o rv st = .ok (c, st')) :
    st'.hasReturn = true ∧
    (∀ k, (tblLookup st'.symtab k).isSome = true ↔
      ((tblLookup st.symtab k).isSome = true ∨ k = returnKey)) ∧
    (List.Nodup (tblKeys st.symtab) → List.Nodup (tblKeys st'.symtab)) ∧
    (allValid st.symtab → allValid st'.symtab) := by
  simp only [processReturn] at h
  cases hl : tblLookup st.symtab returnKey with
  | some tv =>
      rw [show tblLookup ({ st with hasReturn := true } : PState).symtab returnKey
            = tblLookup st.symtab returnKey from rfl, hl] at h
      obtain ⟨h1, h2⟩ := Prod.mk.injEq _ _ _ _ ▸ Except.ok.inj h
      have hsym : st'.symtab = st.symtab := by rw [← h2]
      have hret : st'.hasReturn = true := by rw [← h2]
      have hpr : (tblLookup st.symtab returnKey).isSome = true := by rw [hl]; rfl
      refine ⟨hret, ?_, fun hn => by rwa [hsym], fun hv => by rwa [hsym]⟩
      intro k
      rw [hsym]
      constructor
      · exact fun h3 => Or.inl h3
      · rintro (h3 | h3)
        · exact h3
        · subst h3; exact hpr
  | none =>
      rw [show tblLookup ({ st with hasReturn := true } : PState).symtab returnKey
            = tblLookup st.symtab returnKey from rfl, hl] at h
      cases hi : infer_type rv with
      | some t =>
          rw [hi] at h
          obtain ⟨h1, h2⟩ := Prod.mk.injEq _ _ _ _ ▸ Except.ok.inj h
          have hsym : st'.symtab = tblInsert st.symtab returnKey t := by rw [← h2]
          have hret : st'.hasReturn = true := by rw [← h2]
          have hval : t ∈ valid_dtypes := infer_type_valid rv t hi
          refine ⟨hret, ?_, ?_, ?_⟩
          · intro k
            rw [hsym, tblLookup_insert_isSome]
            tauto
          · intro hn; rw [hsym]; exact tblKeys_insert_nodup _ _ _ hn
          · intro hv; rw [hsym]; exact allValid_insert _ _ _ hv hval
      | none =>
          rw [hi] at h
          cases ha : ask_type o returnAskName st.calls with
          | error e2 =>
              rw [show ({ st with hasReturn := true } : PState).calls = st.calls from rfl,
                ha] at h
              simp at h
          | ok p =>
              obtain ⟨t, c2⟩ := p
              rw [show ({ st with hasReturn := true } : PState).calls = st.calls from rfl,
                ha] at h
              obtain ⟨h1, h2⟩ := Prod.mk.injEq _ _ _ _ ▸ Except.ok.inj h
              have hsym : st'.symtab = tblInsert st.symtab returnKey t := by rw [← h2]
              have hret : st'.hasReturn = true := by rw [← h2]
              have hval : t ∈ valid_dtypes := (ask_type_ok o returnAskName st.calls t c2 ha).1
              refine ⟨hret, ?_, ?_, ?_⟩
              · intro k
                rw [hsym, tblLookup_insert_isSome]
                tauto
              · intro hn; rw [hsym]; exact tblKeys_insert_nodup _ _ _ hn
              · intro hv; rw [hsym]; exact allValid_insert _ _ _ hv hval

/-- The `processForAssign` guarantees lifted to the optional header slot. -/
theorem processForOpt_key (o : Oracle) (ini : Option (String × SRhs)) (st : PState)
    (a : Option (String × String)) (st' : PState)
    (h : processForOpt o ini st = .ok (a, st')) :
    st'.hasReturn = st.hasReturn ∧
    (∀ k, (tblLookup st'.symtab k).isSome = true ↔
      ((tblLookup st.symtab k).isSome = true ∨ k ∈ writesForOpt ini)) ∧
    (List.Nodup (tblKeys st.symtab) → List.Nodup (tblKeys st'.symtab)) ∧
    (allValid st.symtab → allValid st'.symtab) := by
  match ini with
  | none =>
      simp only [processForOpt, Except.ok.injEq, Prod.mk.injEq] at h
      obtain ⟨h1, h2⟩ := h
      subst h2
      exact ⟨rfl, fun k => by simp [writesForOpt], fun hn => hn, fun hv => hv⟩
  | some (v, r) =>
      simp only [processForOpt] at h
      obtain ⟨⟨a1, st1⟩, hb1, h⟩ := exceptBind_ok _ _ _ h
      obtain ⟨h1, h2⟩ := Prod.mk.injEq _ _ _ _ ▸ Except.ok.inj h
      subst h2
      obtain ⟨hret, hp, hn, hv⟩ := processForAssign_key o v r st a1 st1 hb1
      exact ⟨hret, fun k => by rw [hp k]; simp [writesForOpt], hn, hv⟩

/-- The `processCond` guarantees lifted to the optional condition slot. -/
theorem processCondOpt_key (o : Oracle) (c : Option SCond) (st : PState)
    (a : Option String) (st' : PState) (h : processCondOpt o c st = .ok (a, st')) :
    st'.hasReturn = st.hasReturn ∧
    (∀ k, (tblLookup st'.symtab k).isSome = true ↔
      ((tblLookup st.symtab k).isSome = true ∨ k ∈ condIdsOpt c)) ∧
    (List.Nodup (tblKeys st.symtab) → List.Nodup (tblKeys st'.symtab)) ∧
    (allValid st.symtab → allValid st'.symtab) := by
  match c with
  | none =>
      simp only [processCondOpt, Except.ok.injEq, Prod.mk.injEq] at h
      obtain ⟨h1, h2⟩ := h
      subst h2
      exact ⟨rfl, fun k => by simp [condIdsOpt], fun hn => hn, fun hv => hv⟩
  | some cc =>
      simp only [processCondOpt] at h
      obtain ⟨⟨s1, st1⟩, hb1, h⟩ := exceptBind_ok _ _ _ h
      obtain ⟨h1, h2⟩ := Prod.mk.injEq _ _ _ _ ▸ Except.ok.inj h
      subst h2
      obtain ⟨hret, hp, hn, hv⟩ := processCond_key o cc st s1 st1 hb1
      exact ⟨hret, fun k => by rw [hp k]; simp [condIdsOpt], hn, hv⟩

set_option maxHeartbeats 1000000 in
mutual

/-- The central parse invariant, per statement: on success, `has_return` is
`or`-ed with whether the statement contains a `return`; the keys present
afterwards are the old keys, the statement's guaranteed writes, and the
reserved return key exactly when a `return` was processed; key-uniqueness and
label-validity are preserved. -/
theorem processStmt_key : ∀ (o : Oracle) (s : SStmt) (st : PState) (c : CStmt) (st' : PState),
    processStmt o s st = .ok (c, st') →
    (st'.hasReturn = (st.hasReturn || containsRet s) ∧
     (∀ k, (tblLookup st'.symtab k).isSome = true ↔
       ((tblLookup st.symtab k).isSome = true ∨ k ∈ writesOf s ∨
         (k = returnKey ∧ containsRet s = true))) ∧
     (List.Nodup (tblKeys st.symtab) → List.Nodup (tblKeys st'.symtab)) ∧
     (allValid st.symtab → allValid st'.symtab))
  | o, .assignNum var v, st, c, st', h => by
      simp only [processStmt] at h
      obtain ⟨⟨norm, st1⟩, hb1, h⟩ := exceptBind_ok _ _ _ h
      obtain ⟨h1, h2⟩ := Prod.mk.injEq _ _ _ _ ▸ Except.ok.inj h
      subst h2
      obtain ⟨hret, hp, hn, hv⟩ := handle_assignment_key o var v false st norm st1 hb1
      refine ⟨by simp [containsRet, hret], ?_, hn, hv⟩
      intro k
      rw [hp k]
      simp [writesOf, containsRet]
  | o, .assignId var src, st, c, st', h => by
      simp only [processStmt] at h
      obtain ⟨⟨norm, st1⟩, hb1, h⟩ := exceptBind_ok _ _ _ h
      obtain ⟨h1, h2⟩ := Prod.mk.injEq _ _ _ _ ▸ Except.ok.inj h
      subst h2
      obtain ⟨hret, hp, hn, hv⟩ := handle_assignment_key o var (.vStr src) false st norm st1 hb1
      refine ⟨by simp [containsRet, hret], ?_, hn, hv⟩
      intro k
      rw [hp k]
      simp [writesOf, containsRet]
  | o, .assignExpr var e, st, c, st', h => by
      simp only [processStmt] at h
      obtain ⟨⟨flat, st1⟩, hb1, h⟩ := exceptBind_ok _ _ _ h
      obtain ⟨⟨norm, st2⟩, hb2, h⟩ := exceptBind_ok _ _ _ h
      obtain ⟨h1, h2⟩ := Prod.mk.injEq _ _ _ _ ▸ Except.ok.inj h
      subst h2
      obtain ⟨hf1, hret1, hp1, hn1, hv1⟩ := processExpr_key o e st flat st1 hb1
      subst hf1
      obtain ⟨hret2, hp2, hn2, hv2⟩ :=
        handle_assignment_key o var (.vStr (flattenE e)) true st1 norm st2 hb2
      have hw : writesAssign var (.vStr (flattenE e)) true = [var] := by simp [writesAssign]
      refine ⟨by simp [containsRet, hret2, hret1], ?_, fun hn => hn2 (hn1 hn),
        fun hv => hv2 (hv1 hv)⟩
      intro k
      rw [hp2 k, hp1 k, hw]
      simp [writesOf, containsRet, List.mem_append, or_assoc]
  | o, .sIf cc body, st, c, st', h => by
      simp only [processStmt] at h
      obtain ⟨⟨cs, st1⟩, hb1, h⟩ := exceptBind_ok _ _ _ h
      obtain ⟨⟨bs, st2⟩, hb2, h⟩ := exceptBind_ok _ _ _ h
      obtain ⟨h1, h2⟩ := Prod.mk.injEq _ _ _ _ ▸ Except.ok.inj h
      subst h2
      obtain ⟨hret1, hp1, hn1, hv1⟩ := processCond_key o cc st cs st1 hb1
      obtain ⟨hret2, hp2, hn2, hv2⟩ := processStmts_key o body st1 bs st2 hb2
      refine ⟨by simp [containsRet, hret2, hret1], ?_, fun hn => hn2 (hn1 hn),
        fun hv => hv2 (hv1 hv)⟩
      intro k
      rw [hp2 k, hp1 k]
      simp only [writesOf, containsRet, List.mem_append, or_assoc]
  | o, .sWhile cc body, st, c, st', h => by
      simp only [processStmt] at h
      obtain ⟨⟨cs, st1⟩, hb1, h⟩ := exceptBind_ok _ _ _ h
      obtain ⟨⟨bs, st2⟩, hb2, h⟩ := exceptBind_ok _ _ _ h
      obtain ⟨h1, h2⟩ := Prod.mk.injEq _ _ _ _ ▸ Except.ok.inj h
      subst h2
      obtain ⟨hret1, hp1, hn1, hv1⟩ := processCond_key o cc st cs st1 hb1
      obtain ⟨hret2, hp2, hn2, hv2⟩ := processStmts_key o body st1 bs st2 hb2
      refine ⟨by simp [containsRet, hret2, hret1], ?_, fun hn => hn2 (hn1 hn),
        fun hv => hv2 (hv1 hv)⟩
      intro k
      rw [hp2 k, hp1 k]
      simp only [writesOf, containsRet, List.mem_append, or_assoc]
  | o, .sFor ini cc upd body, st, c, st', h => by
      simp only [processStmt] at h
      obtain ⟨⟨iniC, st1⟩, hb1, h⟩ := exceptBind_ok _ _ _ h
      obtain ⟨⟨condC, st2⟩, hb2, h⟩ := exceptBind_ok _ _ _ h
      obtain ⟨⟨updC, st3⟩, hb3, h⟩ := exceptBind_ok _ _ _ h
      obtain ⟨⟨bs, st4⟩, hb4, h⟩ := exceptBind_ok _ _ _ h
      obtain ⟨h1, h2⟩ := Prod.mk.injEq _ _ _ _ ▸ Except.ok.inj h
      subst h2
      obtain ⟨hret1, hp1, hn1, hv1⟩ := processForOpt_key o ini st iniC st1 hb1
      obtain ⟨hret2, hp2, hn2, hv2⟩ := processCondOpt_key o cc st1 condC st2 hb2
      obtain ⟨hret3, hp3, hn3, hv3⟩ := processForOpt_key o upd st2 updC st3 hb3
      obtain ⟨hret4, hp4, hn4, hv4⟩ := processStmts_key o body st3 bs st4 hb4
      refine ⟨by simp [containsRet, hret4, hret3, hret2, hret1], ?_,
        fun hn => hn4 (hn3 (hn2 (hn1 hn))), fun hv => hv4 (hv3 (hv2 (hv1 hv)))⟩
      intro k
      rw [hp4 k, hp3 k, hp2 k, hp1 k]
      simp only [writesOf, containsRet, List.mem_append, or_assoc]
  | o, .sRet (.rnum v), st, c, st', h => by
      simp only [processStmt] at h
      obtain ⟨hret, hp, hn, hv⟩ := processReturn_key o v st c st' h
      refine ⟨by simp [containsRet, hret], ?_, hn, hv⟩
      intro k
      rw [hp k]
      simp [writesOf, containsRet]
  | o, .sRet (.rid x), st, c, st', h => by
      simp only [processStmt] at h
      obtain ⟨hret, hp, hn, hv⟩ := processReturn_key o (.vStr x) st c st' h
      refine ⟨by simp [containsRet, hret], ?_, hn, hv⟩
      intro k
      rw [hp k]
      simp [writesOf, containsRet]
  | o, .sRet (.rexpr e), st, c, st', h => by
      simp only [processStmt] at h
      obtain ⟨⟨flat, st1⟩, hb1, h⟩ := exceptBind_ok _ _ _ h
      obtain ⟨hf1, hretE, hpE, hnE, hvE⟩ := processExpr_key o e st flat st1 hb1
      obtain ⟨hret, hp, hn, hv⟩ := processReturn_key o (.vStr flat) st1 c st' h
      refine ⟨by simp [containsRet, hret], ?_, fun hn0 => hn (hnE hn0),
        fun hv0 => hv (hvE hv0)⟩
      intro k
      rw [hp k, hpE k]
      simp [writesOf, containsRet, List.mem_append, or_assoc]

/-- The parse invariant for statement lists. -/
theorem processStmts_key : ∀ (o : Oracle) (l : List SStmt) (st : PState) (cs : List CStmt)
    (st' : PState), processStmts o l st = .ok (cs, st') →
    (st'.hasReturn = (st.hasReturn || containsRetL l) ∧
     (∀ k, (tblLookup st'.symtab k).isSome = true ↔
       ((tblLookup st.symtab k).isSome = true ∨ k ∈ writesL l ∨
         (k = returnKey ∧ containsRetL l = true))) ∧
     (List.Nodup (tblKeys st.symtab) → List.Nodup (tblKeys st'.symtab)) ∧
     (allValid st.symtab → allValid st'.symtab))
  | o, [], st, cs, st', h => by
      simp only [processStmts, Except.ok.injEq, Prod.mk.injEq] at h
      obtain ⟨h1, h2⟩ := h
      subst h2
      exact ⟨by simp [containsRetL], fun k => by simp [writesL, containsRetL],
        fun hn => hn, fun hv => hv⟩
  | o, s :: rest, st, cs, st', h => by
      simp only [processStmts] at h
      obtain ⟨⟨c1, st1⟩, hb1, h⟩ := exceptBind_ok _ _ _ h
      obtain ⟨⟨cs2, st2⟩, hb2, h⟩ := exceptBind_ok _ _ _ h
      obtain ⟨h1, h2⟩ := Prod.mk.injEq _ _ _ _ ▸ Except.ok.inj h
      subst h2
      obtain ⟨hret1, hp1, hn1, hv1⟩ := processStmt_key o s st c1 st1 hb1
      obtain ⟨hret2, hp2, hn2, hv2⟩ := processStmts_key o rest st1 cs2 st2 hb2
      refine ⟨by simp [containsRetL, hret2, hret1, Bool.or_assoc], ?_,
        fun hn => hn2 (hn1 hn), fun hv => hv2 (hv1 hv)⟩
      intro k
      rw [hp2 k, hp1 k]
      simp only [writesL, containsRetL]
      constructor
      · rintro ((hP | hw | hr) | hw2 | hr2)
        · exact Or.inl hP
        · exact Or.inr (Or.inl (List.mem_append.mpr (Or.inl hw)))
        · exact Or.inr (Or.inr ⟨hr.1, by simp [hr.2]⟩)
        · exact Or.inr (Or.inl (List.mem_append.mpr (Or.inr hw2)))
        · exact Or.inr (Or.inr ⟨hr2.1, by simp [hr2.2]⟩)
      · rintro (hP | hw | hr)
        · exact Or.inl (Or.inl hP)
        · rcases List.mem_append.mp hw with h5 | h5
          · exact Or.inl (Or.inr (Or.inl h5))
          · exact Or.inr (Or.inl h5)
        · obtain ⟨hk, hcr⟩ := hr
          rcases (Bool.or_eq_true _ _).mp hcr with h5 | h5
          · exact Or.inl (Or.inr (Or.inr ⟨hk, h5⟩))
          · exact Or.inr (Or.inr ⟨hk, h5⟩)

end

/-- What the parameter backfill loop of `p_function` guarantees. -/
theorem backfillParams_key (o : Oracle) (ps : List String) :
    ∀ st st', backfillParams o ps st = .ok st' →
      st'.hasReturn = st.hasReturn ∧
      (∀ k, (tblLookup st'.symtab k).isSome = true ↔
        ((tblLookup st.symtab k).isSome = true ∨ k ∈ ps)) ∧
      (List.Nodup (tblKeys st.symtab) → List.Nodup (tblKeys st'.symtab)) ∧
      (allValid st.symtab → allValid st'.symtab) := by
  induction ps with
  | nil =>
      intro st st' h
      simp only [backfillParams, Except.ok.injEq] at h
      subst h
      exact ⟨rfl, fun k => by simp, fun hn => hn, fun hv => hv⟩
  | cons p ps ih =>
      intro st st' h
      simp only [backfillParams] at h
      cases hl : tblLookup st.symtab p with
      | some tv =>
          rw [hl] at h
          obtain ⟨hret, hp, hn, hv⟩ := ih st st' h
          have hpp : (tblLookup st.symtab p).isSome = true := by rw [hl]; rfl
          refine ⟨hret, ?_, hn, hv⟩
          intro k
          rw [hp k]
          simp only [List.mem_cons]
          constructor
          · rintro (h3 | h3)
            · exact Or.inl h3
            · exact Or.inr (Or.inr h3)
          · rintro (h3 | h3 | h3)
            · exact Or.inl h3
            · subst h3; exact Or.inl hpp
            · exact Or.inr h3
      | none =>
          rw [hl] at h
          cases ha : ask_type o p st.calls with
          | error e2 => rw [ha] at h; simp at h
          | ok pr =>
              obtain ⟨t, c⟩ := pr
              rw [ha] at h
              obtain ⟨hret, hp, hn, hv⟩ := ih _ st' h
              have hval : t ∈ valid_dtypes := (ask_type_ok o p st.calls t c ha).1
              refine ⟨hret, ?_, ?_, ?_⟩
              · intro k
                have hred : ((tblLookup (tblInsert st.symtab p t) k).isSome = true ∨ k ∈ ps)
                    ↔ ((tblLookup st.symtab k).isSome = true ∨ k ∈ p :: ps) := by
                  rw [tblLookup_insert_isSome]
                  simp only [List.mem_cons]
                  tauto
                exact (hp k).trans hred
              · intro hn0
                exact hn (tblKeys_insert_nodup _ _ _ hn0)
              · intro hv0
                exact hv (allValid_insert _ _ _ hv0 hval)

/-- What the code generator's parameter-signature loop guarantees. -/
theorem buildParamSig_key (o : Oracle) (ps : List String) :
    ∀ st parts st', buildParamSig o ps st = .ok (parts, st') →
      st'.hasReturn = st.hasReturn ∧
      (∀ k, (tblLookup st'.symtab k).isSome = true ↔
        ((tblLookup st.symtab k).isSome = true ∨ k ∈ ps)) ∧
      (List.Nodup (tblKeys st.symtab) → List.Nodup (tblKeys st'.symtab)) ∧
      (allValid st.symtab → allValid st'.symtab) := by
  induction ps with
  | nil =>
      intro st parts st' h
      simp only [buildParamSig, Except.ok.injEq, Prod.mk.injEq] at h
      obtain ⟨h1, h2⟩ := h
      subst h2
      exact ⟨rfl, fun k => by simp, fun hn => hn, fun hv => hv⟩
  | cons p ps ih =>
      intro st parts st' h
      simp only [buildParamSig] at h
      by_cases hd : (tblLookup st.symtab p).getD "" = ""
      · rw [if_pos hd] at h
        cases ha : ask_type o p st.calls with
        | error e2 =>
            rw [ha] at h
            simp [bind, Except.bind] at h
        | ok pr =>
            obtain ⟨t, c⟩ := pr
            rw [ha] at h
            simp only [bind, Except.bind] at h
            obtain ⟨⟨rest, st2⟩, hb2, h⟩ := exceptBind_ok _ _ _ h
            obtain ⟨h1, h2⟩ := Prod.mk.injEq _ _ _ _ ▸ Except.ok.inj h
            subst h2
            obtain ⟨hret, hp, hn, hv⟩ := ih _ rest st2 hb2
            have hval : t ∈ valid_dtypes := (ask_type_ok o p st.calls t c ha).1
            refine ⟨hret, ?_, ?_, ?_⟩
            · intro k
              have hred : ((tblLookup (tblInsert st.symtab p t) k).isSome = true ∨ k ∈ ps)
                  ↔ ((tblLookup st.symtab k).isSome = true ∨ k ∈ p :: ps) := by
                rw [tblLookup_insert_isSome]
                simp only [List.mem_cons]
                tauto
              exact (hp k).trans hred
            · intro hn0
              exact hn (tblKeys_insert_nodup _ _ _ hn0)
            · intro hv0
              exact hv (allValid_insert _ _ _ hv0 hval)
      · rw [if_neg hd] at h
        simp only [bind, Except.bind] at h
        obtain ⟨⟨rest, st2⟩, hb2, h⟩ := exceptBind_ok _ _ _ h
        obtain ⟨h1, h2⟩ := Prod.mk.injEq _ _ _ _ ▸ Except.ok.inj h
        subst h2
        obtain ⟨hret, hp, hn, hv⟩ := ih st rest st2 hb2
        have hpp : (tblLookup st.symtab p).isSome = true := by
          cases hx : tblLookup st.symtab p
          · rw [hx] at hd; simp at hd
          · rfl
        refine ⟨hret, ?_, hn, hv⟩
        intro k
        rw [hp k]
        simp only [List.mem_cons]
        constructor
        · rintro (h3 | h3)
          · exact Or.inl h3
          · exact Or.inr (Or.inr h3)
        · rintro (h3 | h3 | h3)
          · exact Or.inl h3
          · subst h3; exact Or.inl hpp
          · exact Or.inr h3

/-- What `p_function` as a whole guarantees for every non-reserved key. -/
theorem p_function_key (o : Oracle) (name : String) (params : List String)
    (body : List SStmt) (st : PState) (f : CFun) (st' : PState)
    (h : p_function o name params body st = .ok (f, st')) :
    f.name = name ∧ f.params = params ∧
    (∀ k, k ≠ returnKey →
      ((tblLookup st'.symtab k).isSome = true ↔
        ((tblLookup st.symtab k).isSome = true ∨ k ∈ writesL body ∨ k ∈ params))) ∧
    (List.Nodup (tblKeys st.symtab) → List.Nodup (tblKeys st'.symtab)) ∧
    (allValid st.symtab → allValid st'.symtab) := by
  simp only [p_function] at h
  obtain ⟨⟨bodyC, stB⟩, hb1, h⟩ := exceptBind_ok _ _ _ h
  obtain ⟨st2, hb2, h⟩ := exceptBind_ok _ _ _ h
  obtain ⟨h1, h2⟩ := Prod.mk.injEq _ _ _ _ ▸ Except.ok.inj h
  subst h2
  obtain ⟨hretB, hpB, hnB, hvB⟩ := processStmts_key o body st bodyC stB hb1
  -- facts about the intermediate pair (promotion step)
  have hmid : ∀ k, k ≠ returnKey →
      ((tblLookup (if stB.hasReturn && tblMem stB.symtab returnKey then
          ((tblLookup stB.symtab returnKey).getD "void",
            { stB with symtab := tblErase stB.symtab returnKey })
        else ("void", stB)).2.symtab k).isSome
        = (tblLookup stB.symtab k).isSome) := by
    intro k hk
    by_cases hc : stB.hasReturn && tblMem stB.symtab returnKey
    · rw [if_pos hc]
      rw [show ({ stB with symtab := tblErase stB.symtab returnKey } : PState).symtab
            = tblErase stB.symtab returnKey from rfl, tblLookup_erase_ne _ _ _ hk]
    · rw [if_neg hc]
  have hmidn : List.Nodup (tblKeys stB.symtab) →
      List.Nodup (tblKeys (if stB.hasReturn && tblMem stB.symtab returnKey then
          ((tblLookup stB.symtab returnKey).getD "void",
            { stB with symtab := tblErase stB.symtab returnKey })
        else ("void", stB)).2.symtab) := by
    intro hn
    by_cases hc : stB.hasReturn && tblMem stB.symtab returnKey
    · rw [if_pos hc]
      exact ((tblErase_sublist stB.symtab returnKey).map Prod.fst).nodup hn
    · rw [if_neg hc]; exact hn
  have hmidv : allValid stB.symtab →
      allValid (if stB.hasReturn && tblMem stB.symtab returnKey then
          ((tblLookup stB.symtab returnKey).getD "void",
            { stB with symtab := tblErase stB.symtab returnKey })
        else ("void", stB)).2.symtab := by
    intro hv
    by_cases hc : stB.hasReturn && tblMem stB.symtab returnKey
    · rw [if_pos hc]
      exact allValid_sublist _ _ (tblErase_sublist stB.symtab returnKey) hv
    · rw [if_neg hc]; exact hv
  obtain ⟨hret2, hp2, hn2, hv2⟩ := backfillParams_key o params _ _ hb2
  refine ⟨by rw [← h1], by rw [← h1], ?_, ?_, ?_⟩
  · intro k hk
    rw [hp2 k, hmid k hk, hpB k]
    constructor
    · rintro ((h3 | h3 | h3) | h3)
      · exact Or.inl h3
      · exact Or.inr (Or.inl h3)
      · exact absurd h3.1 hk
      · exact Or.inr (Or.inr h3)
    · rintro (h3 | h3 | h3)
      · exact Or.inl (Or.inl h3)
      · exact Or.inl (Or.inr (Or.inl h3))
      · exact Or.inr h3
  · exact fun hn => hn2 (hmidn (hnB hn))
  · exact fun hv => hv2 (hmidv (hvB hv))

/-- Count of declaration lines for a key absent from the table. -/
theorem declCount_zero (t : List (String × String)) (params : List String) (k : String)
    (hk : k ∉ tblKeys t) :
    (varsToDeclare t params).countP (fun kv => kv.1 == k) = 0 := by
  induction t with
  | nil => simp [varsToDeclare]
  | cons hd tl ih =>
      obtain ⟨k0, v0⟩ := hd
      simp only [tblKeys, List.map_cons, List.mem_cons] at hk
      push_neg at hk
      have hk0 : ¬(k0 == k) = true := by
        simp only [beq_iff_eq]
        exact fun hkk => hk.1 hkk.symm
      have htl := ih (by simpa [tblKeys] using hk.2)
      simp only [varsToDeclare, List.filter_cons] at htl ⊢
      by_cases hcond : (!(params.contains k0) && v0 != "") = true
      · rw [if_pos hcond, List.countP_cons]
        simpa [hk0] using htl
      · rw [if_neg hcond]
        exact htl

/-- A key present in a table with unique keys, whose label is non-empty and
which is not a parameter, yields exactly one declaration line. -/
theorem declCount_one (t : List (String × String)) (params : List String) (k d : String)
    (hn : List.Nodup (tblKeys t)) (hl : tblLookup t k = some d) (hd : d ≠ "")
    (hp : k ∉ params) :
    (varsToDeclare t params).countP (fun kv => kv.1 == k) = 1 := by
  induction t with
  | nil => simp [tblLookup] at hl
  | cons hd0 tl ih =>
      obtain ⟨k0, v0⟩ := hd0
      simp only [tblKeys, List.map_cons, List.nodup_cons] at hn
      by_cases h0 : k0 = k
      · subst h0
        have hvd : v0 = d := by simpa [tblLookup] using hl
        subst hvd
        have hcond : (!(params.contains k0) && v0 != "") = true := by
          simp only [Bool.and_eq_true, Bool.not_eq_true', bne_iff_ne]
          refine ⟨?_, hd⟩
          cases hcc : params.contains k0
          · rfl
          · exact absurd (by simpa using hcc) hp
        simp only [varsToDeclare, List.filter_cons, if_pos hcond]
        rw [List.countP_cons]
        simp only [beq_self_eq_true, if_true]
        have := declCount_zero tl params k0 hn.1
        simp only [varsToDeclare] at this
        omega
      · simp only [tblLookup, if_neg h0] at hl
        have htl := ih hn.2 hl
        have hk0 : ¬((k0, v0).1 == k) = true := by
          simp only [beq_iff_eq]
          exact h0
        simp only [varsToDeclare, List.filter_cons] at htl ⊢
        by_cases hcond : (!(params.contains k0) && v0 != "") = true
        · rw [if_pos hcond, List.countP_cons]
          simpa [hk0] using htl
        · rw [if_neg hcond]
          exact htl

/-- After `a = v; b = v;` both variables read back the same label. -/
theorem tblLookup_insert2 (t : List (String × String)) (a b v : String) :
    tblLookup (tblInsert (tblInsert t a v) b v) b
      = tblLookup (tblInsert (tblInsert t a v) b v) a := by
  by_cases hab : a = b
  · subst hab; rfl
  · rw [tblLookup_insert_self, tblLookup_insert_ne _ _ _ _ hab, tblLookup_insert_self]

/-- The propagation branch of `handle_assignment` when the source identifier is
already typed: the target unconditionally receives the source's label and the
oracle is untouched. -/
theorem ha_propagate (o : Oracle) (b a t : String) (st : PState)
    (hia : isPyIdentifier a = true) (hl : tblLookup st.symtab a = some t) :
    handle_assignment o b (.vStr a) false st
      = .ok (a, { st with symtab := tblInsert st.symtab b t }) := by
  have hcond : (!false && isPyIdentifier a) = true := by simp [hia]
  simp only [handle_assignment]
  rw [if_pos hcond, hl]

/-- The propagation branch when the source identifier is untyped and no oracle
is registered: the failure carries the source's name. -/
theorem ha_propagate_missing (b a : String) (st : PState)
    (hia : isPyIdentifier a = true) (hl : tblLookup st.symtab a = none) :
    handle_assignment none b (.vStr a) false st = .error a := by
  have hcond : (!false && isPyIdentifier a) = true := by simp [hia]
  simp only [handle_assignment]
  rw [if_pos hcond, hl]
  rfl

/-- The propagation branch when the source identifier is untyped and the
oracle answers: the source is queried (under its own name), and both source
and target receive the stripped answer. -/
theorem ha_propagate_ask (f : String → Option String) (b a : String) (st : PState)
    (ans : String) (hia : isPyIdentifier a = true) (hl : tblLookup st.symtab a = none)
    (hf : f a = some ans) (hv : pyStrip ans ∈ valid_dtypes) :
    handle_assignment (some f) b (.vStr a) false st
      = .ok (a, { st with
            symtab := tblInsert (tblInsert st.symtab a (pyStrip ans)) b (pyStrip ans),
            calls := st.calls + 1 }) := by
  have hcond : (!false && isPyIdentifier a) = true := by simp [hia]
  have ha : ask_type (some f) a st.calls = .ok (pyStrip ans, st.calls + 1) := by
    simp [ask_type, hf, hv]
  simp only [handle_assignment]
  rw [if_pos hcond, hl, ha]

/-! ### Claims -/

/-- Claim C1 (counterexample): the claim states that an oracle answer outside
the seven allowed labels makes resolution fail, but the provider answer
" int " — which is not one of the seven labels — is accepted: `ask_type`
strips surrounding whitespace before the membership test, so resolution of
`x` at an expression site succeeds and records "int". -/
theorem c1_counterexample :
    processExpr (some (fun _ => some " int ")) (SExpr.id "x") initState
      = Except.ok ("x", ⟨[("x", "int")], false, 1⟩) ∧
    " int " ∉ valid_dtypes := ⟨rfl, by decide⟩

/-- Claim C1 (amended): with no oracle registered, resolution fails
immediately with a Missing-Type condition carrying the queried variable's
name; if the registered oracle's answer, after stripping surrounding
whitespace, is not one of the seven allowed labels, resolution fails naming
that variable; an untyped identifier at an expression site fails the same way
with no oracle; and whenever the parse fails, the run produces no generated
text — it propagates the same error. -/
theorem c1_theorem :
    (∀ (var : String) (c : Nat), ask_type none var c = .error var) ∧
    (∀ (f : String → Option String) (var : String) (c : Nat) (ans : String),
      f var = some ans → pyStrip ans ∉ valid_dtypes →
      ask_type (some f) var c = .error var) ∧
    (∀ (var : String) (st : PState), tblLookup st.symtab var = none →
      processExpr none (SExpr.id var) st = .error var) ∧
    (∀ (o : Oracle) (sp : SProg) (e : String), parseProgram o sp = .error e →
      run o sp = .error e) := by
  refine ⟨fun var c => rfl, ?_, ?_, ?_⟩
  · intro f var c ans hf hstrip
    simp [ask_type, hf, hstrip]
  · intro var st hl
    simp only [processExpr]
    rw [hl]
    rfl
  · intro o sp e hp
    simp [run, bind, Except.bind, hp]

/-- Claim C1 (witness): the theorem applied at concrete inputs. -/
theorem c1_witness :
    ask_type none "z" 0 = .error "z" ∧
    ask_type (some (fun _ => some "banana")) "z" 0 = .error "z" ∧
    processExpr none (SExpr.id "z") initState = .error "z" ∧
    run none progBareReturn = .error returnAskName := by
  refine ⟨c1_theorem.1 "z" 0, ?_, ?_, ?_⟩
  · exact c1_theorem.2.1 (fun _ => some "banana") "z" 0 "banana" rfl (by decide)
  · exact c1_theorem.2.2.1 "z" initState rfl
  · exact c1_theorem.2.2.2 none progBareReturn returnAskName rfl

/-- Claim C2 (counterexample): for `fn f() \x7b x = 5; y = x; return y; \x7d`
the registered oracle IS invoked — exactly once — during the parse (the claim
says no oracle call occurs at all), and with no oracle registered the parse
even fails, naming `function_return_type`. -/
theorem c2_counterexample :
    resultCalls (parse_code oracleInt progC2 initState) = some 1 ∧
    parse_code none progC2 initState = .error returnAskName := ⟨rfl, rfl⟩

/-- Claim C2 (amended): for `fn f() \x7b x = 5; y = x; return y; \x7d`, `x`
resolves to int by literal-shape inference and `y` to int by propagation from
`x`, with no oracle query for either variable; but because `return y;`
matches the bare `RETURN ID` production, the return type is not inferable and
the oracle is invoked exactly once, under the fixed name
`function_return_type`. -/
theorem c2_amended :
    parse_code oracleInt progC2 initState
      = Except.ok
          (⟨"f", [], [CStmt.assign "x" "5", CStmt.assign "y" "x", CStmt.ret "y"], "int"⟩,
            ⟨[("x", "int"), ("y", "int")], true, 1⟩) ∧
    parse_code none progC2 initState = Except.error returnAskName := ⟨rfl, rfl⟩

/-- Claim C3 (counterexample): the program
`fn f() \x7b a = 5; b = a; a = 2.5; \x7d` contains the statement pair
`a = <literal>; b = a;`, yet after the parse completes the recorded types
differ: `a` ends as float (silently overwritten by the later literal) while
`b` keeps int. -/
theorem c3_counterexample :
    parse_code none progC3ce initState
      = Except.ok
          (⟨"f", [],
            [CStmt.assign "a" "5", CStmt.assign "b" "a", CStmt.assign "a" "2.5"], "void"⟩,
            ⟨[("a", "float"), ("b", "int")], false, 0⟩) ∧
    tblLookup [("a", "float"), ("b", "int")] "b"
      ≠ tblLookup [("a", "float"), ("b", "int")] "a" := ⟨rfl, by decide⟩

/-- Claim C3 (amended): immediately after processing the pair
`a = <literal>; b = a;` — from any prior state and with any oracle, which is
never consulted — the recorded type of `b` equals the recorded type of `a`
(both are the literal's inferred type); the equality persists to the end of
the parse unless a later statement assigns `a` or `b` again. -/
theorem c3_amended (o : Oracle) (a b : String) (lit : PyVal) (t : String) (st : PState)
    (hia : isPyIdentifier a = true) (hnum : isNumVal lit = true)
    (hinf : infer_type lit = some t) :
    processStmts o [.assignNum a lit, .assignId b a] st
      = Except.ok ([CStmt.assign a (strOf lit), CStmt.assign b a],
          { st with symtab := tblInsert (tblInsert st.symtab a t) b t }) ∧
    tblLookup (tblInsert (tblInsert st.symtab a t) b t) b
      = tblLookup (tblInsert (tblInsert st.symtab a t) b t) a := by
  refine ⟨?_, tblLookup_insert2 st.symtab a b t⟩
  have h2 := ha_propagate o b a t { st with symtab := tblInsert st.symtab a t } hia
    (tblLookup_insert_self st.symtab a t)
  cases lit with
  | vStr s => simp [isNumVal] at hnum
  | vInt n =>
      obtain rfl : t = "int" := by
        simp only [infer_type, Option.some.injEq] at hinf
        exact hinf.symm
      have h1 : handle_assignment o a (.vInt n) false st
          = .ok (toString n, { st with symtab := tblInsert st.symtab a "int" }) := rfl
      simp only [processStmts, processStmt, bind, Except.bind, h1, h2, strOf]
  | vFloat r =>
      obtain rfl : t = "float" := by
        simp only [infer_type, Option.some.injEq] at hinf
        exact hinf.symm
      have h1 : handle_assignment o a (.vFloat r) false st
          = .ok (r, { st with symtab := tblInsert st.symtab a "float" }) := rfl
      simp only [processStmts, processStmt, bind, Except.bind, h1, h2, strOf]

/-- Claim C3 (witness): the amended theorem at `a = 5; b = a;` from the fresh
state with no oracle. -/
theorem c3_witness :
    processStmts none [.assignNum "a" (.vInt 5), .assignId "b" "a"] initState
      = Except.ok ([CStmt.assign "a" "5", CStmt.assign "b" "a"],
          { initState with symtab := tblInsert (tblInsert initState.symtab "a" "int") "b" "int" }) ∧
    tblLookup (tblInsert (tblInsert initState.symtab "a" "int") "b" "int") "b"
      = tblLookup (tblInsert (tblInsert initState.symtab "a" "int") "b" "int") "a" :=
  c3_amended none "a" "b" (.vInt 5) "int" initState (by decide) rfl rfl

/-- Claim C4 (counterexample): for `fn f() \x7b return y; \x7d` with a total
oracle, generation proceeds and emits `return y;` in the body, but `y` — used
inside the function body — has no declaration line at all (the bare
`RETURN ID` production never registers the identifier), so the claim that
every identifier used in the body has exactly one declaration line is false
for this generated output. -/
theorem c4_counterexample :
    c4_claim_holds oracleInt progBareReturn = false ∧
    run oracleInt progBareReturn
      = .ok ("#include <bits/stdc++.h>\nusing namespace std;\n\nint f() \x7b\n    return y;\n\x7d\n\nint main() \x7b\n    f();\n    return 0;\n\x7d\n") :=
  ⟨rfl, rfl⟩

/-- Claim C4 (amended): for every successfully parsed and emitted program,
every identifier the parse guarantees a symbol-table entry for (assignment
targets and identifiers reduced through expression factors — i.e. every
identifier used in the body except function parameters and identifiers whose
only use is as a bare `return ID ;` value) has exactly one declaration line;
the declaration lines form a block placed between the signature and the first
rendered statement of the body; and a `for`-loop header renders its init and
update slots as bare `var = value` with no inline type declaration. -/
theorem c4_amended (o : Oracle) (sp : SProg) (f : CFun) (stP : PState)
    (hparse : parseProgram o sp = .ok (f, stP))
    (hrk : returnKey ∉ writesL sp.body)
    (parts : List String) (st1 : PState)
    (hsig : buildParamSig o f.params stP = .ok (parts, st1)) :
    List.Nodup (tblKeys (varsToDeclare st1.symtab f.params)) ∧
    (∀ v, v ∈ writesL sp.body → v ∉ f.params →
      (varsToDeclare st1.symtab f.params).countP (fun kv => kv.1 == v) = 1) ∧
    generate_function o f 0 stP
      = .ok (f.return_type ++ " " ++ f.name ++ "("
          ++ String.intercalate ", " parts ++ ") \x7b\n"
          ++ declBlock (varsToDeclare st1.symtab f.params) 0
          ++ genStmts f.body 1 ++ "\x7d\n\n", st1) ∧
    (∀ ini cond upd b ind, genStmt (CStmt.cFor ini cond upd b) ind
        = generate_for_cpp ini cond upd (genStmts b (ind + 1)) ind) ∧
    (∀ x val, fmtForPart (some (x, val)) = x ++ " = " ++ val) := by
  obtain ⟨hname, hparams, hpP, hnP, hvP⟩ :=
    p_function_key o sp.name sp.params sp.body initState f stP hparse
  obtain ⟨hret1, hp1, hn1, hv1⟩ := buildParamSig_key o f.params stP parts st1 hsig
  have hnodP : List.Nodup (tblKeys stP.symtab) := hnP (by simp [initState, tblKeys])
  have hnod1 : List.Nodup (tblKeys st1.symtab) := hn1 hnodP
  have hval1 : allValid st1.symtab :=
    hv1 (hvP (fun kv hkv => absurd hkv (List.not_mem_nil kv)))
  refine ⟨?_, ?_, ?_, fun ini cond upd b ind => rfl, fun x val => rfl⟩
  · exact ((List.filter_sublist _).map Prod.fst).nodup hnod1
  · intro v hv hvp
    have hvrk : v ≠ returnKey := fun hEq => hrk (hEq ▸ hv)
    have hpresP : (tblLookup stP.symtab v).isSome = true := by
      rw [hpP v hvrk]
      exact Or.inr (Or.inl hv)
    have hpres1 : (tblLookup st1.symtab v).isSome = true :=
      (hp1 v).mpr (Or.inl hpresP)
    obtain ⟨d, hd⟩ := Option.isSome_iff_exists.mp hpres1
    have hdval : d ∈ valid_dtypes := allValid_lookup _ _ _ hval1 hd
    have hdne : d ≠ "" := by
      intro h0
      subst h0
      revert hdval
      decide
    exact declCount_one st1.symtab f.params v d hnod1 hd hdne hvp
  · simp only [generate_function, bind, Except.bind, hsig]

/-- Claim C4 (witness): the amended theorem at the spec's for-loop scenario,
where the declarations block is `int i;` and `int s;`. -/
theorem c4_witness :
    List.Nodup (tblKeys (varsToDeclare stForLoop.symtab funForLoop.params)) ∧
    (∀ v, v ∈ writesL progForLoop.body → v ∉ funForLoop.params →
      (varsToDeclare stForLoop.symtab funForLoop.params).countP (fun kv => kv.1 == v) = 1) ∧
    generate_function oracleInt funForLoop 0 stForLoop
      = .ok (funForLoop.return_type ++ " " ++ funForLoop.name ++ "("
          ++ String.intercalate ", " [] ++ ") \x7b\n"
          ++ declBlock (varsToDeclare stForLoop.symtab funForLoop.params) 0
          ++ genStmts funForLoop.body 1 ++ "\x7d\n\n", stForLoop) ∧
    (∀ ini cond upd b ind, genStmt (CStmt.cFor ini cond upd b) ind
        = generate_for_cpp ini cond upd (genStmts b (ind + 1)) ind) ∧
    (∀ x val, fmtForPart (some (x, val)) = x ++ " = " ++ val) :=
  c4_amended oracleInt progForLoop funForLoop stForLoop rfl (by decide) [] stForLoop rfl

/-- Claim C5: for a fixed source program and a fixed oracle, the
`parse_code → to_cpp` pipeline is independent of whatever global state an
earlier run left behind — `parse_code` resets the symbol table and the
has-return flag — so repeated runs produce byte-identical output. -/
theorem c5_determinism (o : Oracle) (sp : SProg) (g1 g2 : PState) :
    runFrom o sp g1 = runFrom o sp g2 ∧ runFrom o sp g1 = run o sp := ⟨rfl, rfl⟩

/-- Claim C6: after processing a function body from the fresh state (and
provided the program does not itself use the reserved key as a variable), the
return-type sentinel is present in the symbol table — before its promotion
into the function node — iff at least one `return` statement was parsed; the
has-return flag agrees; and when no `return` appears the parsed function's
declared return type is "void". -/
theorem c6_return_sentinel (o : Oracle) (sp : SProg) (cs : List CStmt) (stB : PState)
    (hrk : returnKey ∉ writesL sp.body)
    (hb : processStmts o sp.body initState = .ok (cs, stB)) :
    ((tblLookup stB.symtab returnKey).isSome = true ↔ containsRetL sp.body = true) ∧
    stB.hasReturn = containsRetL sp.body ∧
    (∀ f stF, parseProgram o sp = .ok (f, stF) → containsRetL sp.body = false →
      f.return_type = "void") := by
  obtain ⟨hret, hp, hn, hv⟩ := processStmts_key o sp.body initState cs stB hb
  have hretB : stB.hasReturn = containsRetL sp.body := by simpa using hret
  refine ⟨?_, hretB, ?_⟩
  · rw [hp returnKey]
    constructor
    · rintro (h1 | h1 | h1)
      · simp [initState, tblLookup] at h1
      · exact absurd h1 hrk
      · exact h1.2
    · intro h1
      exact Or.inr (Or.inr ⟨rfl, h1⟩)
  · intro f stF hpf hno
    simp only [parseProgram, p_function] at hpf
    obtain ⟨⟨bodyC, stB'⟩, hb1, hpf⟩ := exceptBind_ok _ _ _ hpf
    obtain ⟨hcs, hstB⟩ := Prod.mk.injEq _ _ _ _ ▸ Except.ok.inj (hb.symm.trans hb1)
    subst hstB
    have hcond : (stB.hasReturn && tblMem stB.symtab returnKey) = false := by
      rw [hretB, hno]
      rfl
    rw [if_neg (by rw [hcond]; exact Bool.false_ne_true)] at hpf
    obtain ⟨st2, hb2, hpf⟩ := exceptBind_ok _ _ _ hpf
    obtain ⟨h1, h2⟩ := Prod.mk.injEq _ _ _ _ ▸ Except.ok.inj hpf
    rw [← h1]

/-- Claim C6 (witness): the theorem at `fn g() \x7b x = 1; \x7d`, which has no
return statement: no sentinel, flag false, return type "void". -/
theorem c6_witness :
    ((tblLookup ([("x", "int")] : List (String × String)) returnKey).isSome = true
      ↔ containsRetL progNoReturn.body = true) ∧
    (false : Bool) = containsRetL progNoReturn.body ∧
    (∀ f stF, parseProgram none progNoReturn = .ok (f, stF) →
      containsRetL progNoReturn.body = false → f.return_type = "void") :=
  c6_return_sentinel none progNoReturn [CStmt.assign "x" "1"] ⟨[("x", "int")], false, 0⟩
    (by decide) rfl

/-- Claim C7 (counterexample): when a double-quoted string value is assigned,
`handle_assignment` does not use literal-shape inference: it consults the
oracle for the target's type (one invocation, recorded label "long" — not
"string"), even though `infer_type` itself would classify the value as a
string literal. -/
theorem c7_counterexample :
    handle_assignment (some (fun _ => some "long")) "x" (.vStr "\"hi\"") false initState
      = Except.ok ("\"hi\"", ⟨[("x", "long")], false, 1⟩) ∧
    infer_type (.vStr "\"hi\"") = some "string" := ⟨rfl, rfl⟩

/-- Claim C7 (amended): an assignment whose right-hand side is a numeric
literal is resolved by literal-shape inference with no oracle involvement —
an integer literal yields int and a decimal literal yields float, the state
changing only by that table entry.  Double- and single-quoted literals are
classified string and char by `infer_type` (used at returns and surfaced in
the resolver contract), but the grammar has no production assigning them, and
a quoted string value reaching `handle_assignment` is routed to the oracle,
not to inference. -/
theorem c7_amended :
    (∀ (o : Oracle) (var : String) (n : Nat) (b : Bool) (st : PState),
      handle_assignment o var (.vInt n) b st
        = .ok (toString n, { st with symtab := tblInsert st.symtab var "int" })) ∧
    (∀ (o : Oracle) (var r : String) (b : Bool) (st : PState),
      handle_assignment o var (.vFloat r) b st
        = .ok (r, { st with symtab := tblInsert st.symtab var "float" })) ∧
    (∀ s : String, strStartsWith s dq = true → strEndsWith s dq = true →
      infer_type (.vStr s) = some "string") ∧
    (∀ s : String, (strStartsWith s dq && strEndsWith s dq) = false →
      strStartsWith s sq = true → strEndsWith s sq = true →
      infer_type (.vStr s) = some "char") := by
  refine ⟨fun o var n b st => rfl, fun o var r b st => rfl, ?_, ?_⟩
  · intro s h1 h2
    simp [infer_type, h1, h2]
  · intro s hne h1 h2
    simp [infer_type, hne, h1, h2]

/-- Claim C7 (witness): the amended theorem at `x = 5`, `x = 2.5`, and the
quoted values "hi" (string) and 'c' (char). -/
theorem c7_witness :
    handle_assignment none "x" (.vInt 5) false initState
      = .ok ("5", { initState with symtab := tblInsert initState.symtab "x" "int" }) ∧
    handle_assignment none "x" (.vFloat "2.5") false initState
      = .ok ("2.5", { initState with symtab := tblInsert initState.symtab "x" "float" }) ∧
    infer_type (.vStr "\"hi\"") = some "string" ∧
    infer_type (.vStr (sq ++ "c" ++ sq)) = some "char" :=
  ⟨c7_amended.1 none "x" 5 false initState,
   c7_amended.2.1 none "x" "2.5" false initState,
   c7_amended.2.2.1 "\"hi\"" (by decide) (by decide),
   c7_amended.2.2.2 (sq ++ "c" ++ sq) (by decide) (by decide) (by decide)⟩

/-- Claim C8: a variable assigned two numeric literals in sequence ends up
with the type inferred from the later literal; the earlier entry is silently
overwritten in place, no failure is raised, and the oracle is never involved
(the resulting state differs only in the table, not in the call counter). -/
theorem c8_overwrite (o : Oracle) (var : String) (v1 v2 : PyVal) (t1 t2 : String)
    (st : PState) (h1 : isNumVal v1 = true) (hi1 : infer_type v1 = some t1)
    (h2 : isNumVal v2 = true) (hi2 : infer_type v2 = some t2) :
    processStmts o [.assignNum var v1, .assignNum var v2] st
      = Except.ok ([CStmt.assign var (strOf v1), CStmt.assign var (strOf v2)],
          { st with symtab := tblInsert (tblInsert st.symtab var t1) var t2 }) ∧
    tblLookup (tblInsert (tblInsert st.symtab var t1) var t2) var = some t2 := by
  refine ⟨?_, tblLookup_insert_self _ _ _⟩
  cases v1 with
  | vStr s => simp [isNumVal] at h1
  | vInt n =>
      obtain rfl : t1 = "int" := by
        simp only [infer_type, Option.some.injEq] at hi1
        exact hi1.symm
      cases v2 with
      | vStr s => simp [isNumVal] at h2
      | vInt m =>
          obtain rfl : t2 = "int" := by
            simp only [infer_type, Option.some.injEq] at hi2
            exact hi2.symm
          rfl
      | vFloat r =>
          obtain rfl : t2 = "float" := by
            simp only [infer_type, Option.some.injEq] at hi2
            exact hi2.symm
          rfl
  | vFloat r =>
      obtain rfl : t1 = "float" := by
        simp only [infer_type, Option.some.injEq] at hi1
        exact hi1.symm
      cases v2 with
      | vStr s => simp [isNumVal] at h2
      | vInt m =>
          obtain rfl : t2 = "int" := by
            simp only [infer_type, Option.some.injEq] at hi2
            exact hi2.symm
          rfl
      | vFloat r2 =>
          obtain rfl : t2 = "float" := by
            simp only [infer_type, Option.some.injEq] at hi2
            exact hi2.symm
          rfl

/-- Claim C8 (witness): `x = 5; x = 2.5;` parses without failure and the
final type of `x` is float. -/
theorem c8_witness :
    processStmts none [.assignNum "x" (.vInt 5), .assignNum "x" (.vFloat "2.5")] initState
      = Except.ok ([CStmt.assign "x" "5", CStmt.assign "x" "2.5"],
          { initState with
            symtab := tblInsert (tblInsert initState.symtab "x" "int") "x" "float" }) ∧
    tblLookup (tblInsert (tblInsert initState.symtab "x" "int") "x" "float") "x"
      = some "float" :=
  c8_overwrite none "x" (.vInt 5) (.vFloat "2.5") "int" "float" initState rfl rfl rfl rfl

/-- Claim C9: when the first `return`'s value has no inferable literal shape,
the oracle is queried under the fixed name `function_return_type` — never
under the returned identifier's name, even if that identifier is already
typed in the table (the state is arbitrary): with no oracle the failure
carries `function_return_type`; with an oracle, the result depends only on
the oracle's answer at `function_return_type`, which is stored under the
reserved key after one invocation; the same holds for a returned arithmetic
expression whose operands resolved successfully with no oracle present. -/
theorem c9_return_oracle_name :
    (∀ (var : String) (st : PState), tblLookup st.symtab returnKey = none →
      infer_type (.vStr var) = none →
      processStmt none (.sRet (.rid var)) st = .error returnAskName) ∧
    (∀ (f : String → Option String) (var : String) (st : PState) (ans : String),
      tblLookup st.symtab returnKey = none → infer_type (.vStr var) = none →
      f returnAskName = some ans → pyStrip ans ∈ valid_dtypes →
      processStmt (some f) (.sRet (.rid var)) st
        = .ok (.ret var, { st with
            symtab := tblInsert st.symtab returnKey (pyStrip ans),
            hasReturn := true, calls := st.calls + 1 })) ∧
    (∀ (e : SExpr) (st : PState) (flat : String) (st1 : PState),
      processExpr none e st = .ok (flat, st1) →
      tblLookup st1.symtab returnKey = none → infer_type (.vStr flat) = none →
      processStmt none (.sRet (.rexpr e)) st = .error returnAskName) := by
  refine ⟨?_, ?_, ?_⟩
  · intro var st hrk hinf
    simp only [processStmt, processReturn]
    rw [show tblLookup ({ st with hasReturn := true } : PState).symtab returnKey
          = tblLookup st.symtab returnKey from rfl, hrk, hinf]
    rfl
  · intro f var st ans hrk hinf hf hv
    have ha : ask_type (some f) returnAskName st.calls = .ok (pyStrip ans, st.calls + 1) := by
      simp [ask_type, hf, hv]
    simp only [processStmt, processReturn]
    rw [show tblLookup ({ st with hasReturn := true } : PState).symtab returnKey
          = tblLookup st.symtab returnKey from rfl, hrk, hinf,
        show ({ st with hasReturn := true } : PState).calls = st.calls from rfl, ha]
    rfl
  · intro e st flat st1 hexp hrk hinf
    simp only [processStmt, bind, Except.bind, hexp]
    simp only [processReturn]
    rw [show tblLookup ({ st1 with hasReturn := true } : PState).symtab returnKey
          = tblLookup st1.symtab returnKey from rfl, hrk, hinf]
    rfl

/-- Claim C9 (witness): with `y` already typed int in the table and no
oracle, `return y;` still fails under the fixed name `function_return_type`,
and with an oracle its answer is stored under the reserved key. -/
theorem c9_witness :
    processStmt none (.sRet (.rid "y")) ⟨[("y", "int")], false, 0⟩
      = .error returnAskName ∧
    processStmt (some (fun _ => some "long")) (.sRet (.rid "y")) ⟨[("y", "int")], false, 0⟩
      = .ok (.ret "y", ⟨[("y", "int"), (returnKey, "long")], true, 1⟩) ∧
    processStmt none (.sRet (.rexpr (.bin (.id "y") "+" (.num (.vInt 1)))))
      ⟨[("y", "int")], false, 0⟩ = .error returnAskName := by
  refine ⟨c9_return_oracle_name.1 "y" ⟨[("y", "int")], false, 0⟩ rfl rfl, ?_, ?_⟩
  · exact c9_return_oracle_name.2.1 (fun _ => some "long") "y" ⟨[("y", "int")], false, 0⟩
      "long" rfl rfl rfl (by decide)
  · exact c9_return_oracle_name.2.2 (.bin (.id "y") "+" (.num (.vInt 1)))
      ⟨[("y", "int")], false, 0⟩ "y + 1" ⟨[("y", "int")], false, 0⟩ rfl rfl rfl

/-- Claim C10: for an assignment `b = a` whose right-hand side is a single
identifier, the target `b` unconditionally receives `a`'s current type —
overwriting whatever `b` had, with no mismatch check and no oracle call; only
when `a` itself is untyped is the oracle consulted, and then under `a`'s
name, never under `b`'s: with no oracle the failure carries `a`, and with an
oracle both `a` and `b` receive the answer to the query at `a`. -/
theorem c10_identifier_assignment :
    (∀ (o : Oracle) (b a t : String) (st : PState), isPyIdentifier a = true →
      tblLookup st.symtab a = some t →
      handle_assignment o b (.vStr a) false st
        = .ok (a, { st with symtab := tblInsert st.symtab b t })) ∧
    (∀ (b a : String) (st : PState), isPyIdentifier a = true →
      tblLookup st.symtab a = none →
      handle_assignment none b (.vStr a) false st = .error a) ∧
    (∀ (f : String → Option String) (b a : String) (st : PState) (ans : String),
      isPyIdentifier a = true → tblLookup st.symtab a = none →
      f a = some ans → pyStrip ans ∈ valid_dtypes →
      handle_assignment (some f) b (.vStr a) false st
        = .ok (a, { st with
            symtab := tblInsert (tblInsert st.symtab a (pyStrip ans)) b (pyStrip ans),
            calls := st.calls + 1 })) :=
  ⟨fun o b a t st hia hl => ha_propagate o b a t st hia hl,
   fun b a st hia hl => ha_propagate_missing b a st hia hl,
   fun f b a st ans hia hl hf hv => ha_propagate_ask f b a st ans hia hl hf hv⟩

/-- Claim C10 (witness): `b = a` with `a : int` and `b` previously recorded
char — `b` is silently overwritten to int with no oracle call; with `a`
untyped the oracle is queried under `a`'s name (or the failure names `a`). -/
theorem c10_witness :
    handle_assignment none "b" (.vStr "a") false ⟨[("a", "int"), ("b", "char")], false, 0⟩
      = .ok ("a", { symtab := [("a", "int"), ("b", "int")], hasReturn := false, calls := 0 }) ∧
    handle_assignment none "b" (.vStr "a") false initState = .error "a" ∧
    handle_assignment (some (fun v => if v = "a" then some "long" else none)) "b" (.vStr "a")
        false initState
      = .ok ("a", { symtab := [("a", "long"), ("b", "long")], hasReturn := false, calls := 1 }) := by
  refine ⟨?_, ?_, ?_⟩
  · exact c10_identifier_assignment.1 none "b" "a" "int"
      ⟨[("a", "int"), ("b", "char")], false, 0⟩ (by decide) rfl
  · exact c10_identifier_assignment.2.1 "b" "a" initState (by decide) rfl
  · exact c10_identifier_assignment.2.2 (fun v => if v = "a" then some "long" else none)
      "b" "a" initState "long" (by decide) rfl rfl (by decide)

end PseudoCpp
